import Mathlib

/-!
# async-runtimes-benchmarks, `go/main.go`

A shallow embedding of the Go benchmark program: command-line resolution of the
task count, the per-task race of `performTask`, and the concurrent system made
of `main` (launch loop and collector loop), the `N` task goroutines and the
closer goroutine, as a deterministic step function driven by a schedule.
-/

namespace GoBench

set_option linter.unusedTactic false
set_option linter.unreachableTactic false
set_option linter.unusedVariables false

/-! ## Command line (`main`, lines 64-70) -/

/-- Value of a decimal digit byte, `none` for any other character
(`ch -= 48; if ch > 9` in `strconv`). -/
def digitVal (c : Char) : Option Nat :=
  if 48 ≤ c.toNat ∧ c.toNat ≤ 57 then some (c.toNat - 48) else none

/-- Base-10 value of a digit sequence read left to right (`n = n*10 + ch`);
`none` as soon as a character is not a digit. -/
def parseDigits : List Char → Nat → Option Nat
  | [], acc => some acc
  | c :: cs, acc =>
    match digitVal c with
    | some d => parseDigits cs (acc * 10 + d)
    | none => none

/-- Largest value of Go's 64-bit `int`. -/
def maxInt : Int := 9223372036854775807

/-- Smallest value of Go's 64-bit `int`. -/
def minInt : Int := -9223372036854775808

/-- Go's `strconv.Atoi` on a 64-bit platform (standard library, used at line 66):
an optional sign, then at least one decimal digit and nothing else; the value
must fit `int`. `none` stands for a non-nil `err` (syntax or range error). -/
def Atoi (s : String) : Option Int :=
  let body (neg : Bool) (ds : List Char) : Option Int :=
    match ds with
    | [] => none
    | _ :: _ =>
      match parseDigits ds 0 with
      | none => none
      | some n =>
        let v : Int := if neg then -(n : Int) else (n : Int)
        if minInt ≤ v ∧ v ≤ maxInt then some v else none
  match s.toList with
  | [] => none
  | '-' :: ds => body true ds
  | '+' :: ds => body false ds
  | ds => body false ds

/-- Lines 64-70 of `main`: `numRoutines` starts at 100000 and is overwritten by
`Atoi(os.Args[1])` when there is such an argument and `err == nil`. -/
def numRoutines (osArgs : List String) : Int :=
  if osArgs.length > 1 then
    match osArgs[1]? with
    | some a =>
      match Atoi a with
      | some n => n
      | none => 100000
    | none => 100000
  else 100000

/-! ## Channels -/

/-- A buffered Go channel. `nsent` and `nclose` are history counters (the number
of sends completed and of `close` calls performed); the program cannot read them. -/
structure Chan (α : Type) where
  cap : Nat
  buf : List α
  closed : Bool
  nsent : Nat
  nclose : Nat
deriving DecidableEq, Repr

/-- Outcome of one attempt at a channel operation or statement. -/
inductive Res (σ : Type) where
  | ok (s : σ)
  | blocked
  | crash
deriving DecidableEq, Repr

/-- The expression `make(chan T, size)`: it aborts the process when `size < 0`. -/
def makeChan (α : Type) (size : Int) : Option (Chan α) :=
  if size < 0 then none
  else some { cap := size.toNat, buf := [], closed := false, nsent := 0, nclose := 0 }

/-- The statement `c <- v`: aborts on a closed channel, blocks while the buffer is full.
A channel of capacity 0 exists only when `numRoutines = 0`, and then no task exists to
send on it, so the rendezvous of an unbuffered channel never arises. -/
def Chan.send {α : Type} (c : Chan α) (v : α) : Res (Chan α) :=
  if c.closed then .crash
  else if c.buf.length < c.cap then .ok { c with buf := c.buf ++ [v], nsent := c.nsent + 1 }
  else .blocked

/-- The expression `v, ok := <-c`: the oldest buffered value with `ok = true`; on a
closed and drained channel the zero value with `ok = false`; `none` when it blocks. -/
def Chan.recv {α : Type} (c : Chan α) (zero : α) : Option (α × Bool × Chan α) :=
  match c.buf with
  | v :: rest => some (v, true, { c with buf := rest })
  | [] => if c.closed then some (zero, false, c) else none

/-- The statement `close(c)`: aborts when the channel is already closed. -/
def Chan.close {α : Type} (c : Chan α) : Option (Chan α) :=
  if c.closed then none else some { c with closed := true, nclose := c.nclose + 1 }

/-! ## Data of the program -/

/-- The struct `TaskResult` (lines 29-36); times are nanoseconds on the monotonic clock. -/
structure TaskResult where
  TaskID : Nat
  StartMemory : Nat
  EndMemory : Nat
  StartTime : Nat
  EndTime : Nat
  Duration : Int
deriving DecidableEq, Repr

/-- Values of Go's `error` that travel on `errChan`; `nil` is its zero value. -/
inductive GoError where
  | nil
  | deadlineExceeded
  | canceled
deriving DecidableEq, Repr

/-- The case of the `select` in `performTask` that fires. -/
inductive Winner where
  | timer
  | done
deriving DecidableEq, Repr

/-- What the environment decides for task `k`: the winner of its race and the
readings of `getMemoryStats` and `time.Now`. -/
structure Env where
  race : Nat → Winner
  startMemory : Nat → Nat
  endMemory : Nat → Nat
  startTime : Nat → Nat
  endTime : Nat → Nat

/-- The method `endTime.Sub(startTime)`: the difference, saturated to the range of `Duration`. -/
def timeSub (endTime startTime : Nat) : Int :=
  let d : Int := (endTime : Int) - (startTime : Int)
  if d < minInt then minInt else if maxInt < d then maxInt else d

/-- The value of `ctx.Err()` once `ctx.Done()` is closed. `cancel` is deferred to the
return of `main`, which ends the process, so a task only ever sees the deadline. -/
def ctxErr : GoError := GoError.deadlineExceeded

/-- A line written to standard output by the collector loop. -/
inductive Line where
  | success (taskID : Nat) (duration : Int)
  | error (e : GoError)
deriving DecidableEq, Repr

/-! ## Goroutines -/

/-- Control point of one `performTask` goroutine. -/
inductive TaskPC where
  | atSelect
  | sendResult (r : TaskResult)
  | sendErr (e : GoError)
  | deferred
  | exited
deriving DecidableEq, Repr

/-- One `performTask` goroutine. `sentResults` and `sentErrs` are history counters of
the sends this goroutine has completed on `results` and on `errChan`. -/
structure Task where
  taskID : Nat
  startMemory : Nat
  startTime : Nat
  pc : TaskPC
  sentResults : Nat
  sentErrs : Nat
deriving DecidableEq, Repr

/-- Control point of `main` from the launch loop on. -/
inductive MainPC where
  | loopTest
  | loopGo
  | collecting
  | returned
deriving DecidableEq, Repr

/-- Control point of the closer goroutine (lines 85-89). -/
inductive CloserPC where
  | notStarted
  | waiting
  | closeResults
  | closeErrChan
  | finished
deriving DecidableEq, Repr

/-- State of the running process after the two channels are made. -/
structure State where
  numRoutines : Nat
  i : Nat
  mainPC : MainPC
  tasks : List Task
  wg : Int
  closer : CloserPC
  results : Chan TaskResult
  errChan : Chan GoError
  stdout : List Line
  crashed : Bool
deriving DecidableEq, Repr

/-- One atomic step of `performTask` (lines 39-61) for the goroutine `t`, on the
shared `results`, `errChan` and WaitGroup counter:
the `select` fires (lines 45-49 or 58), the chosen send runs (line 50 or 59),
the deferred `wg.Done()` runs (line 40). -/
def performTask (env : Env) (t : Task) (results : Chan TaskResult) (errChan : Chan GoError)
    (wg : Int) : Res (Task × Chan TaskResult × Chan GoError × Int) :=
  match t.pc with
  | .atSelect =>
    match env.race t.taskID with
    | .timer =>
      let endTime := env.endTime t.taskID
      let endMemory := env.endMemory t.taskID
      let result : TaskResult :=
        ⟨t.taskID, t.startMemory, endMemory, t.startTime, endTime, timeSub endTime t.startTime⟩
      .ok ({ t with pc := .sendResult result }, results, errChan, wg)
    | .done => .ok ({ t with pc := .sendErr ctxErr }, results, errChan, wg)
  | .sendResult r =>
    match results.send r with
    | .ok results' =>
      .ok ({ t with pc := .deferred, sentResults := t.sentResults + 1 }, results', errChan, wg)
    | .blocked => .blocked
    | .crash => .crash
  | .sendErr e =>
    match errChan.send e with
    | .ok errChan' =>
      .ok ({ t with pc := .deferred, sentErrs := t.sentErrs + 1 }, results, errChan', wg)
    | .blocked => .blocked
    | .crash => .crash
  | .deferred =>
    if wg - 1 < 0 then .crash else .ok ({ t with pc := .exited }, results, errChan, wg - 1)
  | .exited => .blocked

/-- The goroutine created by `go performTask(ctx, i, results, errChan, &wg)`, having
read `startMemory` and `startTime` (lines 42-43) and standing at its `select`. -/
def spawnTask (env : Env) (i : Nat) : Task :=
  { taskID := i, startMemory := env.startMemory i, startTime := env.startTime i,
    pc := .atSelect, sentResults := 0, sentErrs := 0 }

/-- A scheduling decision: which goroutine runs its next statement, and for the
collector's `select` which ready case it takes. -/
inductive Action where
  | main
  | task (k : Nat)
  | closer
  | selectResults
  | selectErrChan
deriving DecidableEq, Repr

/-- The state with the process aborted by a run-time panic. -/
def State.abort (s : State) : State := { s with crashed := true }

/-- One step of the launch part of `main` (lines 79-89): the loop test with
`wg.Add(1)`, the `go performTask` statement with `i++`, and after the loop the
`go func()` that starts the closer. -/
def mainStep (env : Env) (s : State) : Option State :=
  match s.mainPC with
  | .loopTest =>
    if s.i < s.numRoutines then some { s with wg := s.wg + 1, mainPC := .loopGo }
    else some { s with closer := .waiting, mainPC := .collecting }
  | .loopGo => some { s with tasks := s.tasks ++ [spawnTask env s.i], i := s.i + 1, mainPC := .loopTest }
  | .collecting => none
  | .returned => none

/-- One step of the closer goroutine (lines 85-89): `wg.Wait()` passes when the
counter is zero, then `close(results)`, then `close(errChan)`. -/
def closerStep (s : State) : Option State :=
  match s.closer with
  | .notStarted => none
  | .waiting => if s.wg = 0 then some { s with closer := .closeResults } else none
  | .closeResults =>
    match s.results.close with
    | some c => some { s with results := c, closer := .closeErrChan }
    | none => some s.abort
  | .closeErrChan =>
    match s.errChan.close with
    | some c => some { s with errChan := c, closer := .finished }
    | none => some s.abort
  | .finished => none

/-- The `results` case of the collector's `select` (lines 94-98): return when the
channel is closed and drained, print the success line otherwise. -/
def collectResults (s : State) : Option State :=
  match s.mainPC with
  | .collecting =>
    match s.results.recv ⟨0, 0, 0, 0, 0, 0⟩ with
    | some (result, ok, c) =>
      if !ok then some { s with results := c, mainPC := .returned }
      else some { s with results := c,
                         stdout := s.stdout ++ [Line.success result.TaskID result.Duration] }
    | none => none
  | _ => none

/-- The `errChan` case of the collector's `select` (lines 99-102): print the error
when it is not `nil`, and loop. -/
def collectErrChan (s : State) : Option State :=
  match s.mainPC with
  | .collecting =>
    match s.errChan.recv GoError.nil with
    | some (err, _, c) =>
      if err ≠ GoError.nil then some { s with errChan := c, stdout := s.stdout ++ [Line.error err] }
      else some { s with errChan := c }
    | none => none
  | _ => none

/-- One step of the process under the scheduling decision `a`; `none` when that
goroutine cannot run (blocked, finished, or the process has ended: `main`
returned or a panic aborted it). -/
def step (env : Env) (s : State) (a : Action) : Option State :=
  if s.crashed ∨ s.mainPC = .returned then none
  else
    match a with
    | .main => mainStep env s
    | .task k =>
      match s.tasks[k]? with
      | none => none
      | some t =>
        match performTask env t s.results s.errChan s.wg with
        | .ok (t', r, e, w) => some { s with tasks := s.tasks.set k t', results := r, errChan := e, wg := w }
        | .blocked => none
        | .crash => some s.abort
    | .closer => closerStep s
    | .selectResults => collectResults s
    | .selectErrChan => collectErrChan s

/-- Run a schedule; `none` when one of its decisions is not enabled. -/
def exec (env : Env) (s : State) : List Action → Option State
  | [] => some s
  | a :: as =>
    match step env s a with
    | some s' => exec env s' as
    | none => none

/-- Lines 75-77 of `main` for a task count `n`: the zero WaitGroup and the two
channels of capacity `n`; `none` when `make` aborts the process. -/
def setup (n : Int) : Option State :=
  match makeChan TaskResult n, makeChan GoError n with
  | some results, some errChan =>
    some { numRoutines := n.toNat, i := 0, mainPC := .loopTest, tasks := [], wg := 0,
           closer := .notStarted, results := results, errChan := errChan, stdout := [],
           crashed := false }
  | _, _ => none

/-- The process state at the launch loop for a task count `N ≥ 0`. -/
def init (N : Nat) : State :=
  { numRoutines := N, i := 0, mainPC := .loopTest, tasks := [], wg := 0,
    closer := .notStarted,
    results := { cap := N, buf := [], closed := false, nsent := 0, nclose := 0 },
    errChan := { cap := N, buf := [], closed := false, nsent := 0, nclose := 0 },
    stdout := [], crashed := false }

/-- `main` up to the launch loop on the command line `osArgs`. -/
def mainSetup (osArgs : List String) : Option State := setup (numRoutines osArgs)

/-- The environment in which every race has the same winner. -/
def constEnv (w : Winner) : Env :=
  { race := fun _ => w, startMemory := fun _ => 0, endMemory := fun _ => 0,
    startTime := fun _ => 0, endTime := fun _ => 10000000000 }

/-! ## Observations on a state -/

/-- A goroutine that has not yet run its deferred `wg.Done()`. -/
def Task.live (t : Task) : Bool := decide (t.pc ≠ TaskPC.exited)

/-- Number of task goroutines that have not terminated. -/
def liveTasks (s : State) : Nat := s.tasks.countP Task.live

/-- Task identifier of a success line, `none` for an error line. -/
def Line.successID : Line → Option Nat
  | .success k _ => some k
  | .error _ => none

/-- Whether a line is an error line. -/
def Line.isError : Line → Bool
  | .success _ _ => false
  | .error _ => true

/-- Task identifiers of the success lines printed so far, in print order. -/
def printedIDs (s : State) : List Nat := s.stdout.filterMap Line.successID

/-- Number of success lines printed so far. -/
def successLines (s : State) : Nat := (printedIDs s).length

/-- Number of error lines printed so far. -/
def errorLines (s : State) : Nat := s.stdout.countP Line.isError

/-- Number of outcomes the collector has collected (lines printed). -/
def collected (s : State) : Nat := successLines s + errorLines s

/-- Number of outcomes the tasks have sent on the two channels. -/
def outcomesSent (s : State) : Nat := s.results.nsent + s.errChan.nsent

/-- All `numRoutines` tasks have been launched and have terminated. -/
def allTasksDone (s : State) : Prop := s.tasks.length = s.numRoutines ∧ liveTasks s = 0

/-- No scheduling decision is enabled: the run is over. -/
def terminal (env : Env) (s : State) : Prop := ∀ a, step env s a = none

/-! ## The invariant of the running process -/

/-- The outcome a task that has passed its send has sent: one value, on the
channel of the case that won its race. -/
def Task.sentOne (env : Env) (t : Task) : Prop :=
  (env.race t.taskID = Winner.timer ∧ t.sentResults = 1 ∧ t.sentErrs = 0) ∨
  (env.race t.taskID = Winner.done ∧ t.sentResults = 0 ∧ t.sentErrs = 1)

/-- What holds of a task goroutine at each of its control points. -/
def TaskOK (env : Env) (t : Task) : Prop :=
  match t.pc with
  | .atSelect => t.sentResults = 0 ∧ t.sentErrs = 0
  | .sendResult r =>
    env.race t.taskID = Winner.timer ∧ r.TaskID = t.taskID ∧ t.sentResults = 0 ∧ t.sentErrs = 0
  | .sendErr e =>
    env.race t.taskID = Winner.done ∧ e ≠ GoError.nil ∧ t.sentResults = 0 ∧ t.sentErrs = 0
  | .deferred => t.sentOne env
  | .exited => t.sentOne env

/-- The closer has passed `wg.Wait()`. -/
def CloserPC.pastWait : CloserPC → Bool
  | .closeResults => true
  | .closeErrChan => true
  | .finished => true
  | _ => false

/-- The closer has run `close(results)`. -/
def CloserPC.closedResults : CloserPC → Bool
  | .closeErrChan => true
  | .finished => true
  | _ => false

/-- The closer has run `close(errChan)`. -/
def CloserPC.closedErrChan : CloserPC → Bool
  | .finished => true
  | _ => false

/-- The launch loop of `main` is still running. -/
def MainPC.launching : MainPC → Bool
  | .loopTest => true
  | .loopGo => true
  | _ => false

/-- Number of results the task at index `k` has sent (zero when there is no such task). -/
def sentResultsAt (tasks : List Task) (k : Nat) : Nat :=
  match tasks[k]? with
  | some t => t.sentResults
  | none => 0

/-- The invariant of every state the process can reach. -/
structure Inv (env : Env) (s : State) : Prop where
  noCrash : s.crashed = false
  capResults : s.results.cap = s.numRoutines
  capErrChan : s.errChan.cap = s.numRoutines
  lenTasks : s.tasks.length = s.i
  iLe : s.i ≤ s.numRoutines
  goLt : s.mainPC = MainPC.loopGo → s.i < s.numRoutines
  launched : s.mainPC.launching = false → s.i = s.numRoutines
  closerStart : (s.closer = CloserPC.notStarted) ↔ (s.mainPC.launching = true)
  wgEq : s.wg = (liveTasks s : Int) + (if s.mainPC = MainPC.loopGo then 1 else 0)
  waited : s.closer.pastWait = true → liveTasks s = 0
  closedR : s.results.closed = s.closer.closedResults
  ncloseR : s.results.nclose = if s.results.closed then 1 else 0
  closedE : s.errChan.closed = s.closer.closedErrChan
  ncloseE : s.errChan.nclose = if s.errChan.closed then 1 else 0
  returned : s.mainPC = MainPC.returned → s.results.closed = true ∧ s.results.buf = []
  taskOK : ∀ t ∈ s.tasks, TaskOK env t
  taskID : ∀ (k : Nat) (t : Task), s.tasks[k]? = some t → t.taskID = k
  sentR : s.results.nsent = (s.tasks.map Task.sentResults).sum
  sentE : s.errChan.nsent = (s.tasks.map Task.sentErrs).sum
  bufR : s.results.buf.length + successLines s = s.results.nsent
  bufE : s.errChan.buf.length + errorLines s = s.errChan.nsent
  nonNil : ∀ e ∈ s.errChan.buf, e ≠ GoError.nil
  ids : ∀ k, (printedIDs s ++ s.results.buf.map TaskResult.TaskID).count k =
          sentResultsAt s.tasks k

/-- The state after task `k` has run one step with result `(t', r, e, w)`. -/
def State.withTask (s : State) (k : Nat) (t' : Task) (r : Chan TaskResult) (e : Chan GoError)
    (w : Int) : State :=
  { s with tasks := s.tasks.set k t', results := r, errChan := e, wg := w }

/-- The `TaskResult` built at lines 50-57 by the task `t` when its timer has fired. -/
def taskResult (env : Env) (t : Task) : TaskResult :=
  ⟨t.taskID, t.startMemory, env.endMemory t.taskID, t.startTime, env.endTime t.taskID,
    timeSub (env.endTime t.taskID) t.startTime⟩

/-! ## Progress measure -/

/-- Number of statements a task goroutine still has to run. -/
def TaskPC.remaining : TaskPC → Nat
  | .atSelect => 3
  | .sendResult _ => 2
  | .sendErr _ => 2
  | .deferred => 1
  | .exited => 0

/-- Number of statements the task goroutine `t` still has to run. -/
def Task.remaining (t : Task) : Nat := t.pc.remaining

/-- Number of statements of the launch loop `main` still has to run. -/
def mainRemaining (s : State) : Nat :=
  match s.mainPC with
  | .loopTest => 2 * (s.numRoutines - s.i) + 1
  | .loopGo => 2 * (s.numRoutines - s.i)
  | .collecting => 0
  | .returned => 0

/-- Number of statements the closer goroutine still has to run. -/
def CloserPC.remaining : CloserPC → Nat
  | .notStarted => 4
  | .waiting => 3
  | .closeResults => 2
  | .closeErrChan => 1
  | .finished => 0

/-- Total of the statements the tasks still have to run. -/
def tasksRemaining (s : State) : Nat := (s.tasks.map Task.remaining).sum

/-- A bound on the work left before `main` returns, under a scheduler that never
takes the `errChan` case of the collector. -/
def workLeft (s : State) : Nat :=
  7 * mainRemaining s + 2 * tasksRemaining s + s.closer.remaining + s.results.buf.length
    + (if s.mainPC = MainPC.returned then 0 else 1)

/-! ## The race in time -/

/-- One second, in nanoseconds (`time.Second`). -/
def Second : Nat := 1000000000

/-- What the run time decides for the race of one task, in nanoseconds on the monotonic
clock: `start` is the reading of `time.Now()` at line 43; `arrive` is the instant the
goroutine evaluates the cases of its `select` and `time.After` arms the timer (line 46);
`timerLate` is how long after its duration the run time sends on the timer channel (Go
fires a timer no earlier than its duration, with no upper bound); `doneLate` is how long
after the deadline the closing of `ctx.Done()` reaches this goroutine (the context closes
it from a goroutine of its own, no earlier than the deadline); `tie` is the case the run
time picks when both are ready together; `endTime` is the reading of line 47. -/
structure RaceTimes where
  start : Nat
  arrive : Nat
  timerLate : Nat
  doneLate : Nat
  tie : Bool
  endTime : Nat

/-- The case the run time picks when both cases of the `select` are ready. -/
def pickReady (tie : Bool) : Winner := if tie then Winner.timer else Winner.done

/-- The `select` of lines 45-60 in time. A case that is ready when the goroutine arrives
fires at once, and the run time picks when both are; otherwise the goroutine parks and
the first of the two events (the send on the timer channel at `timerAt`, the closing of
`ctx.Done()` at `doneAt`) fires its case, the run time picking when they coincide. -/
def selectWinner (arrive timerAt doneAt : Nat) (tie : Bool) : Winner :=
  if timerAt ≤ arrive ∧ doneAt ≤ arrive then pickReady tie
  else if timerAt ≤ arrive then Winner.timer
  else if doneAt ≤ arrive then Winner.done
  else if timerAt < doneAt then Winner.timer
  else if doneAt < timerAt then Winner.done
  else pickReady tie

/-- The instant the timer of `time.After(wait)` fires: armed on arrival at the `select`,
fired `timerLate` after its duration. -/
def timerAt (wait : Nat) (r : RaceTimes) : Nat := r.arrive + wait + r.timerLate

/-- The instant the closing of `ctx.Done()` reaches the task, for a context created at
`created` by `context.WithTimeout(_, timeout)`: `doneLate` after the deadline. -/
def doneAt (created timeout : Nat) (r : RaceTimes) : Nat := created + timeout + r.doneLate

/-- The race of one task under a context created at `created` with timeout `timeout`
(line 72) and a per-task wait `wait` (line 46). -/
def raceWith (timeout wait created : Nat) (r : RaceTimes) : Winner :=
  selectWinner r.arrive (timerAt wait r) (doneAt created timeout r) r.tie

/-- The race with the durations of the code: `11*time.Second` and `10*time.Second`. -/
def race (created : Nat) (r : RaceTimes) : Winner :=
  raceWith (11 * Second) (10 * Second) created r

/-- The environment in which the race of task `k` is decided in time by `times k`. -/
def timedEnv (timeout wait created : Nat) (times : Nat → RaceTimes) : Env :=
  { race := fun k => raceWith timeout wait created (times k),
    startMemory := fun _ => 0, endMemory := fun _ => 0,
    startTime := fun k => (times k).start, endTime := fun k => (times k).endTime }

/-- The timed environment with the durations of the code: a timeout of 11 seconds
(line 72) and a per-task wait of 10 seconds (line 46). -/
def referenceEnv (created : Nat) (times : Nat → RaceTimes) : Env :=
  timedEnv (11 * Second) (10 * Second) created times

/-- A task that starts and enters its `select` at `t`, with both the timer and the
closing of `ctx.Done()` on time. -/
def onTime (t : Nat) : RaceTimes :=
  { start := t, arrive := t, timerLate := 0, doneLate := 0, tie := true,
    endTime := t + 10 * Second }

/-- A task that starts and enters its `select` at `t` and whose timer fires `late` after
its duration. -/
def timerLateBy (t late : Nat) : RaceTimes :=
  { start := t, arrive := t, timerLate := late, doneLate := 0, tie := true,
    endTime := t + 10 * Second + late }

/-- A task that starts and enters its `select` at `t` and which the closing of
`ctx.Done()` reaches `late` after the deadline. -/
def doneLateBy (t late : Nat) : RaceTimes :=
  { start := t, arrive := t, timerLate := 0, doneLate := late, tie := true,
    endTime := t + 10 * Second }

/-- Two tasks: task 0 starts 2 seconds after the context's creation, every other task
half a second after it; timers and deadline on time. -/
def mixedTimes (k : Nat) : RaceTimes :=
  if k = 0 then onTime (2 * Second) else onTime 500000000

/-! ## Schedules of concrete runs -/

/-- One task, run to its end before the closer starts; the closer closes both channels;
the collector then takes the `results` case once. -/
def dropSchedule : List Action :=
  [.main, .main, .task 0, .task 0, .task 0, .main, .closer, .closer, .closer, .selectResults]

/-- One task, run to its end; the collector takes the `errChan` case before the closer
runs, and the `results` case after it. -/
def drainSchedule : List Action :=
  [.main, .main, .task 0, .task 0, .task 0, .main, .selectErrChan, .closer, .closer, .closer,
   .selectResults]

/-- One task; the collector prints its result and returns as soon as `results` is closed,
before the closer reaches `close(errChan)`. -/
def oneTaskSchedule : List Action :=
  [.main, .main, .task 0, .task 0, .task 0, .main, .closer, .closer, .selectResults,
   .selectResults]

/-- No task: the closer passes `wg.Wait()` and closes `results`, and `main` returns before
the closer reaches `close(errChan)`. -/
def earlyReturnSchedule : List Action :=
  [.main, .closer, .closer, .selectResults]

/-- Three tasks, interleaved with the launch loop and with the collector; the results
reach the collector in the order 1, 0, 2. -/
def threeTaskSchedule : List Action :=
  [.main, .main, .main, .main, .task 1, .task 0, .task 1, .main, .task 0, .main, .main,
   .task 1, .selectResults, .task 2, .task 0, .task 2, .selectResults, .task 2,
   .closer, .closer, .selectResults, .closer, .selectErrChan, .selectResults]

/-- The state a schedule leads to from the start of a run with `N` tasks (the start
itself when the schedule cannot run). -/
def finalState (env : Env) (N : Nat) (acts : List Action) : State :=
  (exec env (init N) acts).getD (init N)

/-! ## List facts used by the invariants -/

theorem countP_set_of_getElem? {α : Type} (p : α → Bool) (l : List α) (k : Nat) (a b : α)
    (h : l[k]? = some a) :
    (l.set k b).countP p + (if p a then 1 else 0) = l.countP p + (if p b then 1 else 0) := by
  induction l generalizing k with
  | nil => simp at h
  | cons x l ih =>
    cases k with
    | zero =>
      simp at h
      subst h
      simp only [List.set_cons_zero, List.countP_cons]
      omega
    | succ k =>
      simp at h
      have := ih k h
      simp only [List.set_cons_succ, List.countP_cons]
      omega

theorem sum_map_set_of_getElem? {α : Type} (f : α → Nat) (l : List α) (k : Nat) (a b : α)
    (h : l[k]? = some a) :
    ((l.set k b).map f).sum + f a = (l.map f).sum + f b := by
  induction l generalizing k with
  | nil => simp at h
  | cons x l ih =>
    cases k with
    | zero =>
      simp at h
      subst h
      simp only [List.set_cons_zero, List.map_cons, List.sum_cons]
      omega
    | succ k =>
      simp at h
      have := ih k h
      simp only [List.set_cons_succ, List.map_cons, List.sum_cons]
      omega

theorem sum_map_lt_length {α : Type} (f : α → Nat) (l : List α) (hle : ∀ t ∈ l, f t ≤ 1)
    (a : α) (ha : a ∈ l) (h0 : f a = 0) : (l.map f).sum < l.length := by
  induction l with
  | nil => simp at ha
  | cons x l ih =>
    have hsum : (l.map f).sum ≤ l.length := by
      clear ih ha
      induction l with
      | nil => simp
      | cons y l ih2 =>
        have h1 := hle y (by simp)
        have h2 := ih2 (fun t ht => hle t (by
          rcases List.mem_cons.1 ht with h | h
          · simp [h]
          · simp [h]))
        simp only [List.map_cons, List.sum_cons, List.length_cons]
        omega
    rcases List.mem_cons.1 ha with h | h
    · subst h
      simp only [List.map_cons, List.sum_cons, List.length_cons]
      omega
    · have h1 := hle x (by simp)
      have h2 := ih (fun t ht => hle t (by simp [ht])) h
      simp only [List.map_cons, List.sum_cons, List.length_cons]
      omega

theorem mem_of_getElem?_eq {α : Type} {l : List α} {k : Nat} {a : α} (h : l[k]? = some a) :
    a ∈ l := by
  rw [List.getElem?_eq_some] at h
  obtain ⟨hk, rfl⟩ := h
  exact List.getElem_mem hk

/-! ## Preservation of the invariant -/

theorem inv_init (env : Env) (N : Nat) : Inv env (init N) := by
  constructor <;> simp [init, liveTasks, successLines, errorLines, printedIDs, MainPC.launching,
    CloserPC.pastWait, CloserPC.closedResults, CloserPC.closedErrChan, sentResultsAt]

theorem getElem?_append_singleton {α : Type} (l : List α) (a : α) (k : Nat) :
    (l ++ [a])[k]? = if k < l.length then l[k]? else if k = l.length then some a else none := by
  by_cases h1 : k < l.length
  · simp [h1, List.getElem?_append_left h1]
  · have h2 : l.length ≤ k := by omega
    rw [List.getElem?_append_right h2]
    by_cases h3 : k = l.length
    · simp [h3]
    · have : k - l.length = (k - l.length - 1) + 1 := by omega
      rw [this]
      simp [h1, h3]

theorem sentResultsAt_append_singleton (l : List Task) (a : Task) (k : Nat) :
    sentResultsAt (l ++ [a]) k = sentResultsAt l k + (if k = l.length then a.sentResults else 0) := by
  unfold sentResultsAt
  rw [getElem?_append_singleton]
  by_cases h1 : k < l.length
  · have h2 : k ≠ l.length := by omega
    simp [h1, h2]
  · have hnone : l[k]? = none := by
      rw [List.getElem?_eq_none_iff]; omega
    by_cases h3 : k = l.length
    · simp [h3]
    · simp [h1, h3, hnone]

theorem sentResultsAt_set (l : List Task) (j k : Nat) (a b : Task) (h : l[j]? = some a) :
    sentResultsAt (l.set j b) k = if k = j then b.sentResults else sentResultsAt l k := by
  unfold sentResultsAt
  have hj : j < l.length := by
    rw [List.getElem?_eq_some] at h
    exact h.1
  rw [List.getElem?_set]
  by_cases h1 : j = k
  · subst h1
    simp [hj]
  · have h2 : ¬ k = j := fun e => h1 e.symm
    simp [h1, h2]

theorem inv_mainStep {env : Env} {s s' : State} (h : Inv env s) (hs : mainStep env s = some s') :
    Inv env s' := by
  unfold mainStep at hs
  split at hs
  · -- loop test
    rename_i hpc
    split at hs
    · rename_i hlt
      cases hs
      cases h
      constructor
      all_goals try assumption
      all_goals try (simp_all [liveTasks, successLines, errorLines, printedIDs, MainPC.launching]; done)
    · rename_i hlt
      cases hs
      obtain ⟨noCrash, capR, capE, lenT, iLe, goLt, launched, closerStart, wgEq, waited, closedR,
      ncloseR, closedE, ncloseE, returned, taskOK, taskID, sentR, sentE, bufR, bufE, nonNil, ids⟩ := h
      constructor
      all_goals try assumption
      all_goals try (simp_all [liveTasks, successLines, errorLines, printedIDs, MainPC.launching,
        CloserPC.pastWait, CloserPC.closedResults, CloserPC.closedErrChan]; done)
      case launched => intro _; show s.i = s.numRoutines; omega
  · rename_i hpc
    cases hs
    obtain ⟨noCrash, capR, capE, lenT, iLe, goLt, launched, closerStart, wgEq, waited, closedR,
      ncloseR, closedE, ncloseE, returned, taskOK, taskID, sentR, sentE, bufR, bufE, nonNil, ids⟩ := h
    constructor
    all_goals try assumption
    all_goals try (simp_all [liveTasks, successLines, errorLines, printedIDs, MainPC.launching,
        CloserPC.pastWait, CloserPC.closedResults, CloserPC.closedErrChan, spawnTask]; done)
    case iLe => exact goLt hpc
    case wgEq =>
      show s.wg = ((s.tasks ++ [spawnTask env s.i]).countP Task.live : Int) + _
      rw [wgEq]
      simp [liveTasks, hpc, List.countP_append, spawnTask, Task.live]
    case taskOK =>
      intro t ht
      rcases List.mem_append.1 ht with h1 | h1
      · exact taskOK t h1
      · simp at h1
        subst h1
        simp [TaskOK, spawnTask]
    case taskID =>
      intro k t ht
      change (s.tasks ++ [spawnTask env s.i])[k]? = some t at ht
      rw [getElem?_append_singleton] at ht
      split at ht
      · exact taskID k t ht
      · split at ht
        · cases ht
          show s.i = k
          omega
        · cases ht
    case ids =>
      intro k
      have hk := ids k
      show _ = sentResultsAt (s.tasks ++ [spawnTask env s.i]) k
      rw [sentResultsAt_append_singleton]
      simpa [spawnTask] using hk
  · simp at hs
  · simp at hs

theorem inv_closerStep {env : Env} {s s' : State} (h : Inv env s) (hs : closerStep s = some s') :
    Inv env s' := by
  unfold closerStep at hs
  split at hs
  · simp at hs
  · rename_i hpc
    split at hs
    · rename_i hwg
      cases hs
      obtain ⟨noCrash, capR, capE, lenT, iLe, goLt, launched, closerStart, wgEq, waited, closedR,
      ncloseR, closedE, ncloseE, returned, taskOK, taskID, sentR, sentE, bufR, bufE, nonNil, ids⟩ := h
      constructor
      all_goals try assumption
      all_goals try (simp_all [liveTasks, successLines, errorLines, printedIDs, MainPC.launching,
      CloserPC.pastWait, CloserPC.closedResults, CloserPC.closedErrChan, Chan.close, State.abort]; done)
    · simp at hs
  · rename_i hpc
    have hcl : s.results.closed = false := by
      rw [h.closedR, hpc]; rfl
    simp only [Chan.close, hcl] at hs
    cases hs
    obtain ⟨noCrash, capR, capE, lenT, iLe, goLt, launched, closerStart, wgEq, waited, closedR,
      ncloseR, closedE, ncloseE, returned, taskOK, taskID, sentR, sentE, bufR, bufE, nonNil, ids⟩ := h
    constructor
    all_goals try assumption
    all_goals try (simp_all [liveTasks, successLines, errorLines, printedIDs, MainPC.launching,
      CloserPC.pastWait, CloserPC.closedResults, CloserPC.closedErrChan, Chan.close, State.abort]; done)
  · rename_i hpc
    have hcl : s.errChan.closed = false := by
      rw [h.closedE, hpc]; rfl
    simp only [Chan.close, hcl] at hs
    cases hs
    obtain ⟨noCrash, capR, capE, lenT, iLe, goLt, launched, closerStart, wgEq, waited, closedR,
      ncloseR, closedE, ncloseE, returned, taskOK, taskID, sentR, sentE, bufR, bufE, nonNil, ids⟩ := h
    constructor
    all_goals try assumption
    all_goals try (simp_all [liveTasks, successLines, errorLines, printedIDs, MainPC.launching,
      CloserPC.pastWait, CloserPC.closedResults, CloserPC.closedErrChan, Chan.close, State.abort]; done)
  · simp at hs

theorem inv_collectResults {env : Env} {s s' : State} (h : Inv env s)
    (hs : collectResults s = some s') : Inv env s' := by
  unfold collectResults at hs
  split at hs
  · rename_i hpc
    cases hbuf : s.results.buf with
    | cons v rest =>
      -- a buffered result is printed
      simp [Chan.recv, hbuf] at hs
      subst hs
      obtain ⟨noCrash, capR, capE, lenT, iLe, goLt, launched, closerStart, wgEq, waited, closedR,
      ncloseR, closedE, ncloseE, returned, taskOK, taskID, sentR, sentE, bufR, bufE, nonNil, ids⟩ := h
      constructor
      all_goals try assumption
      all_goals try (simp_all [liveTasks, successLines, errorLines, printedIDs, MainPC.launching,
      CloserPC.pastWait, CloserPC.closedResults, CloserPC.closedErrChan]; done)
      case bufR =>
        show rest.length + successLines _ = s.results.nsent
        simp only [successLines, printedIDs] at bufR ⊢
        simp [hbuf, List.filterMap_append, Line.successID] at bufR ⊢
        omega
      case bufE =>
        show s.errChan.buf.length + errorLines _ = s.errChan.nsent
        simp only [errorLines] at bufE ⊢
        simp [Line.isError, List.countP_append]
        exact bufE
      case ids =>
        intro k
        have hk := ids k
        show (printedIDs _ ++ rest.map TaskResult.TaskID).count k = sentResultsAt s.tasks k
        rw [← hk]
        simp [printedIDs, hbuf, List.filterMap_append, Line.successID, List.count_cons]
    | nil =>
      cases hcl : s.results.closed with
      | true =>
        simp [Chan.recv, hbuf, hcl] at hs
        subst hs
        obtain ⟨noCrash, capR, capE, lenT, iLe, goLt, launched, closerStart, wgEq, waited, closedR,
      ncloseR, closedE, ncloseE, returned, taskOK, taskID, sentR, sentE, bufR, bufE, nonNil, ids⟩ := h
        constructor
        all_goals try assumption
        all_goals try (simp_all [liveTasks, successLines, errorLines, printedIDs, MainPC.launching,
      CloserPC.pastWait, CloserPC.closedResults, CloserPC.closedErrChan]; done)
      | false => simp [Chan.recv, hbuf, hcl] at hs
  · simp at hs

theorem inv_collectErrChan {env : Env} {s s' : State} (h : Inv env s)
    (hs : collectErrChan s = some s') : Inv env s' := by
  unfold collectErrChan at hs
  split at hs
  · rename_i hpc
    cases hbuf : s.errChan.buf with
    | cons v rest =>
      have hv : v ≠ GoError.nil := h.nonNil v (by simp [hbuf])
      simp [Chan.recv, hbuf, hv] at hs
      subst hs
      obtain ⟨noCrash, capR, capE, lenT, iLe, goLt, launched, closerStart, wgEq, waited, closedR,
      ncloseR, closedE, ncloseE, returned, taskOK, taskID, sentR, sentE, bufR, bufE, nonNil, ids⟩ := h
      constructor
      all_goals try assumption
      all_goals try (simp_all [liveTasks, successLines, errorLines, printedIDs, MainPC.launching,
      CloserPC.pastWait, CloserPC.closedResults, CloserPC.closedErrChan]; done)
      case bufR =>
        show s.results.buf.length + successLines _ = s.results.nsent
        simp only [successLines, printedIDs] at bufR ⊢
        simp [List.filterMap_append, Line.successID]
        exact bufR
      case bufE =>
        show rest.length + errorLines _ = s.errChan.nsent
        simp only [errorLines] at bufE ⊢
        simp [hbuf, Line.isError, List.countP_append] at bufE ⊢
        omega
      case ids =>
        intro k
        have hk := ids k
        show (printedIDs _ ++ s.results.buf.map TaskResult.TaskID).count k = sentResultsAt s.tasks k
        rw [← hk]
        simp [printedIDs, List.filterMap_append, Line.successID]
    | nil =>
      cases hcl : s.errChan.closed with
      | true =>
        simp [Chan.recv, hbuf, hcl] at hs
        subst hs
        obtain ⟨noCrash, capR, capE, lenT, iLe, goLt, launched, closerStart, wgEq, waited, closedR,
      ncloseR, closedE, ncloseE, returned, taskOK, taskID, sentR, sentE, bufR, bufE, nonNil, ids⟩ := h
        constructor
        all_goals try assumption
        all_goals try (simp_all [liveTasks, successLines, errorLines, printedIDs, MainPC.launching,
      CloserPC.pastWait, CloserPC.closedResults, CloserPC.closedErrChan]; done)
      | false => simp [Chan.recv, hbuf, hcl] at hs
  · simp at hs

theorem live_pos {s : State} {k : Nat} {t : Task} (ht : s.tasks[k]? = some t)
    (hl : t.live = true) : 0 < liveTasks s := by
  unfold liveTasks
  rw [List.countP_pos_iff]
  exact ⟨t, mem_of_getElem?_eq ht, hl⟩

theorem not_pastWait_of_live {env : Env} {s : State} {k : Nat} {t : Task} (h : Inv env s)
    (ht : s.tasks[k]? = some t) (hl : t.live = true) : s.closer.pastWait = false := by
  cases hp : s.closer.pastWait with
  | false => rfl
  | true =>
    have h0 := h.waited hp
    have h1 := live_pos ht hl
    omega

theorem open_of_live {env : Env} {s : State} {k : Nat} {t : Task} (h : Inv env s)
    (ht : s.tasks[k]? = some t) (hl : t.live = true) :
    s.results.closed = false ∧ s.errChan.closed = false := by
  have hp := not_pastWait_of_live h ht hl
  rw [h.closedR, h.closedE]
  cases hc : s.closer <;> simp_all [CloserPC.pastWait, CloserPC.closedResults, CloserPC.closedErrChan]

/-- Preservation of the invariant by a task step that changes only the task itself and
keeps it live and its history counters. -/
theorem inv_withTask_local {env : Env} {s : State} {k : Nat} {t t' : Task} (h : Inv env s)
    (ht : s.tasks[k]? = some t) (hl : t.live = true) (hl' : t'.live = true)
    (hid : t'.taskID = t.taskID) (hr : t'.sentResults = t.sentResults)
    (he : t'.sentErrs = t.sentErrs) (hok : TaskOK env t') :
    Inv env (s.withTask k t' s.results s.errChan s.wg) := by
  have hcount := countP_set_of_getElem? Task.live s.tasks k t t' ht
  have hsumR := sum_map_set_of_getElem? Task.sentResults s.tasks k t t' ht
  have hsumE := sum_map_set_of_getElem? Task.sentErrs s.tasks k t t' ht
  obtain ⟨noCrash, capR, capE, lenT, iLe, goLt, launched, closerStart, wgEq, waited, closedR,
      ncloseR, closedE, ncloseE, returned, taskOK, taskID, sentR, sentE, bufR, bufE, nonNil, ids⟩ := h
  constructor
  all_goals try assumption
  all_goals try (simp_all [State.withTask, liveTasks, successLines, errorLines, printedIDs]; done)
  case taskOK =>
    intro x hx
    rcases List.mem_or_eq_of_mem_set hx with h1 | h1
    · exact taskOK x h1
    · rw [h1]; exact hok
  case taskID =>
    intro j x hx
    change (s.tasks.set k t')[j]? = some x at hx
    rw [List.getElem?_set] at hx
    split at hx
    · rename_i hkj
      split at hx
      · cases hx
        rw [hid, ← hkj]
        exact taskID k t ht
      · cases hx
    · exact taskID j x hx
  case ids =>
    intro j
    show _ = sentResultsAt (s.tasks.set k t') j
    rw [sentResultsAt_set _ _ _ _ _ ht]
    split
    · rename_i hjk
      rw [hr]
      have := ids j
      rw [hjk] at this ⊢
      simpa [sentResultsAt, ht] using this
    · exact ids j

theorem taskID_set {s : State} {k : Nat} {t t' : Task}
    (taskID : ∀ (j : Nat) (x : Task), s.tasks[j]? = some x → x.taskID = j)
    (ht : s.tasks[k]? = some t) (hid : t'.taskID = t.taskID) :
    ∀ (j : Nat) (x : Task), (s.tasks.set k t')[j]? = some x → x.taskID = j := by
  intro j x hx
  rw [List.getElem?_set] at hx
  split at hx
  · rename_i hkj
    split at hx
    · cases hx
      rw [hid, ← hkj]
      exact taskID k t ht
    · cases hx
  · exact taskID j x hx

/-- Preservation of the invariant by the send of line 50. -/
theorem inv_sendResult {env : Env} {s : State} {k : Nat} {t : Task} {r : TaskResult}
    (h : Inv env s) (ht : s.tasks[k]? = some t) (hpc : t.pc = TaskPC.sendResult r) :
    Inv env (s.withTask k { t with pc := TaskPC.deferred, sentResults := t.sentResults + 1 }
      { s.results with buf := s.results.buf ++ [r], nsent := s.results.nsent + 1 }
      s.errChan s.wg) := by
  have hl : t.live = true := by simp [Task.live, hpc]
  have hnw := not_pastWait_of_live h ht hl
  have hopen := open_of_live h ht hl
  have hcount := countP_set_of_getElem? Task.live s.tasks k t
    { t with pc := TaskPC.deferred, sentResults := t.sentResults + 1 } ht
  have hsumR := sum_map_set_of_getElem? Task.sentResults s.tasks k t
    { t with pc := TaskPC.deferred, sentResults := t.sentResults + 1 } ht
  have hsumE := sum_map_set_of_getElem? Task.sentErrs s.tasks k t
    { t with pc := TaskPC.deferred, sentResults := t.sentResults + 1 } ht
  have hok := h.taskOK t (mem_of_getElem?_eq ht)
  simp only [TaskOK, hpc] at hok
  have hidk := h.taskID k t ht
  obtain ⟨noCrash, capR, capE, lenT, iLe, goLt, launched, closerStart, wgEq, waited, closedR,
      ncloseR, closedE, ncloseE, returned, taskOK, taskID, sentR, sentE, bufR, bufE, nonNil, ids⟩ := h
  constructor
  all_goals try assumption
  all_goals try (simp_all [State.withTask, liveTasks, successLines, errorLines, printedIDs,
                   Task.live]; done)
  case taskOK =>
    intro x hx
    rcases List.mem_or_eq_of_mem_set hx with h1 | h1
    · exact taskOK x h1
    · rw [h1]
      simp [TaskOK, Task.sentOne, hok]
  case taskID => exact taskID_set taskID ht rfl
  case bufR =>
    show (s.results.buf ++ [r]).length + successLines s = s.results.nsent + 1
    simp
    omega
  case ids =>
    intro j
    show (printedIDs s ++ (s.results.buf ++ [r]).map TaskResult.TaskID).count j
      = sentResultsAt (s.tasks.set k _) j
    rw [sentResultsAt_set _ _ _ _ _ ht]
    have hj := ids j
    have hrk : r.TaskID = k := by rw [hok.2.1, hidk]
    simp only [List.map_append, List.map_cons, List.map_nil, ← List.append_assoc,
      List.count_append, hrk] at hj ⊢
    split
    · rename_i hjk
      subst hjk
      simp [sentResultsAt, ht] at hj
      simp
      omega
    · rename_i hjk
      have : ¬ k = j := fun e => hjk e.symm
      simp [List.count_cons, this]
      omega

/-- Preservation of the invariant by the send of line 59. -/
theorem inv_sendErr {env : Env} {s : State} {k : Nat} {t : Task} {e : GoError}
    (h : Inv env s) (ht : s.tasks[k]? = some t) (hpc : t.pc = TaskPC.sendErr e) :
    Inv env (s.withTask k { t with pc := TaskPC.deferred, sentErrs := t.sentErrs + 1 }
      s.results { s.errChan with buf := s.errChan.buf ++ [e], nsent := s.errChan.nsent + 1 }
      s.wg) := by
  have hl : t.live = true := by simp [Task.live, hpc]
  have hnw := not_pastWait_of_live h ht hl
  have hopen := open_of_live h ht hl
  have hcount := countP_set_of_getElem? Task.live s.tasks k t
    { t with pc := TaskPC.deferred, sentErrs := t.sentErrs + 1 } ht
  have hsumR := sum_map_set_of_getElem? Task.sentResults s.tasks k t
    { t with pc := TaskPC.deferred, sentErrs := t.sentErrs + 1 } ht
  have hsumE := sum_map_set_of_getElem? Task.sentErrs s.tasks k t
    { t with pc := TaskPC.deferred, sentErrs := t.sentErrs + 1 } ht
  have hok := h.taskOK t (mem_of_getElem?_eq ht)
  simp only [TaskOK, hpc] at hok
  have hidk := h.taskID k t ht
  obtain ⟨noCrash, capR, capE, lenT, iLe, goLt, launched, closerStart, wgEq, waited, closedR,
      ncloseR, closedE, ncloseE, returned, taskOK, taskID, sentR, sentE, bufR, bufE, nonNil, ids⟩ := h
  constructor
  all_goals try assumption
  all_goals try (simp_all [State.withTask, liveTasks, successLines, errorLines, printedIDs,
                   Task.live]; done)
  case taskOK =>
    intro x hx
    rcases List.mem_or_eq_of_mem_set hx with h1 | h1
    · exact taskOK x h1
    · rw [h1]
      simp [TaskOK, Task.sentOne, hok]
  case taskID => exact taskID_set taskID ht rfl
  case bufE =>
    show (s.errChan.buf ++ [e]).length + errorLines s = s.errChan.nsent + 1
    simp
    omega
  case nonNil =>
    intro x hx
    change x ∈ s.errChan.buf ++ [e] at hx
    rcases List.mem_append.1 hx with h1 | h1
    · exact nonNil x h1
    · simp at h1
      rw [h1]
      exact hok.2.1
  case ids =>
    intro j
    show (printedIDs s ++ s.results.buf.map TaskResult.TaskID).count j
      = sentResultsAt (s.tasks.set k _) j
    rw [sentResultsAt_set _ _ _ _ _ ht]
    have hj := ids j
    split
    · rename_i hjk
      subst hjk
      simpa [sentResultsAt, ht] using hj
    · exact hj

/-- Preservation of the invariant by the deferred `wg.Done()` of line 40. -/
theorem inv_done {env : Env} {s : State} {k : Nat} {t : Task}
    (h : Inv env s) (ht : s.tasks[k]? = some t) (hpc : t.pc = TaskPC.deferred) :
    Inv env (s.withTask k { t with pc := TaskPC.exited } s.results s.errChan (s.wg - 1)) := by
  have hl : t.live = true := by simp [Task.live, hpc]
  have hnw := not_pastWait_of_live h ht hl
  have hopen := open_of_live h ht hl
  have hcount := countP_set_of_getElem? Task.live s.tasks k t { t with pc := TaskPC.exited } ht
  have hsumR := sum_map_set_of_getElem? Task.sentResults s.tasks k t
    { t with pc := TaskPC.exited } ht
  have hsumE := sum_map_set_of_getElem? Task.sentErrs s.tasks k t
    { t with pc := TaskPC.exited } ht
  have hok := h.taskOK t (mem_of_getElem?_eq ht)
  simp only [TaskOK, hpc] at hok
  have hidk := h.taskID k t ht
  obtain ⟨noCrash, capR, capE, lenT, iLe, goLt, launched, closerStart, wgEq, waited, closedR,
      ncloseR, closedE, ncloseE, returned, taskOK, taskID, sentR, sentE, bufR, bufE, nonNil, ids⟩ := h
  constructor
  all_goals try assumption
  all_goals try (simp_all [State.withTask, liveTasks, successLines, errorLines, printedIDs,
                   Task.live]; done)
  case wgEq =>
    show s.wg - 1 = ((s.tasks.set k _).countP Task.live : Int)
      + (if s.mainPC = MainPC.loopGo then 1 else 0)
    rw [wgEq]
    simp only [liveTasks]
    simp [Task.live, hpc] at hcount
    split <;> omega
  case taskOK =>
    intro x hx
    rcases List.mem_or_eq_of_mem_set hx with h1 | h1
    · exact taskOK x h1
    · rw [h1]
      simpa [TaskOK, Task.sentOne] using hok
  case taskID => exact taskID_set taskID ht rfl
  case ids =>
    intro j
    show (printedIDs s ++ s.results.buf.map TaskResult.TaskID).count j
      = sentResultsAt (s.tasks.set k _) j
    rw [sentResultsAt_set _ _ _ _ _ ht]
    have hj := ids j
    split
    · rename_i hjk
      subst hjk
      simpa [sentResultsAt, ht] using hj
    · exact hj

theorem wg_pos_of_live {env : Env} {s : State} {k : Nat} {t : Task} (h : Inv env s)
    (ht : s.tasks[k]? = some t) (hl : t.live = true) : 0 < s.wg := by
  have h1 := live_pos ht hl
  have h2 := h.wgEq
  split at h2 <;> omega

theorem inv_taskStep {env : Env} {s s' : State} {k : Nat} {t : Task} (h : Inv env s)
    (ht : s.tasks[k]? = some t)
    (hs : (match performTask env t s.results s.errChan s.wg with
      | .ok (t', r, e, w) =>
        some { s with tasks := s.tasks.set k t', results := r, errChan := e, wg := w }
      | .blocked => none
      | .crash => some s.abort) = some s') : Inv env s' := by
  have hok := h.taskOK t (mem_of_getElem?_eq ht)
  cases hpc : t.pc with
  | atSelect =>
    have hl : t.live = true := by simp [Task.live, hpc]
    simp only [TaskOK, hpc] at hok
    cases hw : env.race t.taskID with
    | timer =>
      simp [performTask, hpc, hw] at hs
      subst hs
      exact inv_withTask_local h ht hl (by simp [Task.live]) rfl rfl rfl
        (by simp [TaskOK, hw, hok])
    | done =>
      simp [performTask, hpc, hw] at hs
      subst hs
      exact inv_withTask_local h ht hl (by simp [Task.live]) rfl rfl rfl
        (by simp [TaskOK, hw, hok, ctxErr])
  | sendResult r =>
    have hl : t.live = true := by simp [Task.live, hpc]
    have hopen := open_of_live h ht hl
    have hc : ¬ (s.results.closed = true) := by simp [hopen.1]
    by_cases hroom : s.results.buf.length < s.results.cap
    · simp only [performTask, hpc, Chan.send, if_neg hc, if_pos hroom] at hs
      cases hs
      exact inv_sendResult h ht hpc
    · simp only [performTask, hpc, Chan.send, if_neg hc, if_neg hroom] at hs
      cases hs
  | sendErr e =>
    have hl : t.live = true := by simp [Task.live, hpc]
    have hopen := open_of_live h ht hl
    have hc : ¬ (s.errChan.closed = true) := by simp [hopen.2]
    by_cases hroom : s.errChan.buf.length < s.errChan.cap
    · simp only [performTask, hpc, Chan.send, if_neg hc, if_pos hroom] at hs
      cases hs
      exact inv_sendErr h ht hpc
    · simp only [performTask, hpc, Chan.send, if_neg hc, if_neg hroom] at hs
      cases hs
  | deferred =>
    have hl : t.live = true := by simp [Task.live, hpc]
    have hwg := wg_pos_of_live h ht hl
    have hc : ¬ (s.wg - 1 < 0) := by omega
    simp only [performTask, hpc, if_neg hc] at hs
    cases hs
    exact inv_done h ht hpc
  | exited => simp [performTask, hpc] at hs

/-- Every step of the process preserves the invariant. -/
theorem inv_step {env : Env} {s s' : State} {a : Action} (h : Inv env s)
    (hs : step env s a = some s') : Inv env s' := by
  unfold step at hs
  split at hs
  · cases hs
  · cases a with
    | main => exact inv_mainStep h hs
    | task k =>
      simp only at hs
      cases ht : s.tasks[k]? with
      | none => simp [ht] at hs
      | some t =>
        simp only [ht] at hs
        exact inv_taskStep h ht hs
    | closer => exact inv_closerStep h hs
    | selectResults => exact inv_collectResults h hs
    | selectErrChan => exact inv_collectErrChan h hs

/-- Every state reached by a schedule from a state with the invariant has it. -/
theorem inv_exec {env : Env} {s s' : State} {acts : List Action} (h : Inv env s)
    (hs : exec env s acts = some s') : Inv env s' := by
  induction acts generalizing s with
  | nil =>
    simp [exec] at hs
    subst hs
    exact h
  | cons a as ih =>
    simp only [exec] at hs
    cases hst : step env s a with
    | none => simp [hst] at hs
    | some s1 =>
      simp only [hst] at hs
      exact ih (inv_step h hst) hs

/-- Every state of a run of the program with `N` tasks has the invariant. -/
theorem inv_reachable {env : Env} {N : Nat} {acts : List Action} {s : State}
    (hs : exec env (init N) acts = some s) : Inv env s :=
  inv_exec (inv_init env N) hs

theorem numRoutines_step {env : Env} {s s' : State} {a : Action}
    (hs : step env s a = some s') : s'.numRoutines = s.numRoutines := by
  unfold step at hs
  split at hs
  · cases hs
  · cases a with
    | main =>
      simp only [mainStep] at hs
      split at hs
      · split at hs <;> cases hs <;> rfl
      · cases hs; rfl
      · cases hs
      · cases hs
    | task k =>
      simp only at hs
      split at hs
      · cases hs
      · split at hs
        · cases hs; rfl
        · cases hs
        · cases hs; rfl
    | closer =>
      simp only [closerStep] at hs
      split at hs
      · cases hs
      · split at hs <;> cases hs; rfl
      · split at hs <;> cases hs <;> rfl
      · split at hs <;> cases hs <;> rfl
      · cases hs
    | selectResults =>
      simp only [collectResults] at hs
      split at hs
      · split at hs
        · split at hs <;> cases hs <;> rfl
        · cases hs
      · cases hs
    | selectErrChan =>
      simp only [collectErrChan] at hs
      split at hs
      · split at hs
        · split at hs <;> cases hs <;> rfl
        · cases hs
      · cases hs

theorem numRoutines_exec {env : Env} {s s' : State} {acts : List Action}
    (hs : exec env s acts = some s') : s'.numRoutines = s.numRoutines := by
  induction acts generalizing s with
  | nil =>
    simp [exec] at hs
    subst hs
    rfl
  | cons a as ih =>
    simp only [exec] at hs
    cases hst : step env s a with
    | none => simp [hst] at hs
    | some s1 =>
      simp only [hst] at hs
      rw [ih hs, numRoutines_step hst]

/-! ## Consequences of the invariant -/

theorem sent_le_one {env : Env} {t : Task} (h : TaskOK env t) :
    t.sentResults ≤ 1 ∧ t.sentErrs ≤ 1 := by
  unfold TaskOK at h
  split at h
  · omega
  · omega
  · omega
  · rcases h with h | h <;> omega
  · rcases h with h | h <;> omega

theorem not_returned_of_live {env : Env} {s : State} {k : Nat} {t : Task} (h : Inv env s)
    (ht : s.tasks[k]? = some t) (hl : t.live = true) : s.mainPC ≠ MainPC.returned := by
  intro hr
  have h1 := (h.returned hr).1
  have h2 := (open_of_live h ht hl).1
  rw [h1] at h2
  cases h2

theorem room_results {env : Env} {s : State} {k : Nat} {t : Task} (h : Inv env s)
    (ht : s.tasks[k]? = some t) (h0 : t.sentResults = 0) :
    s.results.buf.length < s.results.cap := by
  have h1 := sum_map_lt_length Task.sentResults s.tasks
    (fun x hx => (sent_le_one (h.taskOK x hx)).1) t (mem_of_getElem?_eq ht) h0
  have h2 := h.bufR
  have h3 := h.sentR
  have h4 := h.lenTasks
  have h5 := h.iLe
  have h6 := h.capResults
  omega

theorem room_errChan {env : Env} {s : State} {k : Nat} {t : Task} (h : Inv env s)
    (ht : s.tasks[k]? = some t) (h0 : t.sentErrs = 0) :
    s.errChan.buf.length < s.errChan.cap := by
  have h1 := sum_map_lt_length Task.sentErrs s.tasks
    (fun x hx => (sent_le_one (h.taskOK x hx)).2) t (mem_of_getElem?_eq ht) h0
  have h2 := h.bufE
  have h3 := h.sentE
  have h4 := h.lenTasks
  have h5 := h.iLe
  have h6 := h.capErrChan
  omega

theorem step_task_of {env : Env} {s : State} {k : Nat} {t : Task} (h : Inv env s)
    (ht : s.tasks[k]? = some t) (hl : t.live = true) :
    step env s (Action.task k) =
      match performTask env t s.results s.errChan s.wg with
      | .ok (t', r, e, w) => some (s.withTask k t' r e w)
      | .blocked => none
      | .crash => some s.abort := by
  have hnr := not_returned_of_live h ht hl
  have hc : ¬ (s.crashed = true ∨ s.mainPC = MainPC.returned) := by
    simp [h.noCrash, hnr]
  simp only [step, if_neg hc, ht]
  rfl

/-- A live task can always run its next statement, and doing so reduces the work left. -/
theorem task_progress {env : Env} {s : State} {k : Nat} {t : Task} (h : Inv env s)
    (ht : s.tasks[k]? = some t) (hl : t.live = true) :
    ∃ s', step env s (Action.task k) = some s' ∧ workLeft s' < workLeft s := by
  have hok := h.taskOK t (mem_of_getElem?_eq ht)
  have hstep := step_task_of h ht hl
  have hrem := fun t' => sum_map_set_of_getElem? Task.remaining s.tasks k t t' ht
  cases hpc : t.pc with
  | atSelect =>
    cases hw : env.race t.taskID with
    | timer =>
      simp only [performTask, hpc, hw] at hstep
      refine ⟨_, hstep, ?_⟩
      have := hrem { t with pc := TaskPC.sendResult ⟨t.taskID, t.startMemory,
        env.endMemory t.taskID, t.startTime, env.endTime t.taskID,
        timeSub (env.endTime t.taskID) t.startTime⟩ }
      simp only [Task.remaining, hpc, TaskPC.remaining] at this
      simp only [workLeft, State.withTask, tasksRemaining, mainRemaining]
      omega
    | done =>
      simp only [performTask, hpc, hw] at hstep
      refine ⟨_, hstep, ?_⟩
      have := hrem { t with pc := TaskPC.sendErr ctxErr }
      simp only [Task.remaining, hpc, TaskPC.remaining] at this
      simp only [workLeft, State.withTask, tasksRemaining, mainRemaining]
      omega
  | sendResult r =>
    simp only [TaskOK, hpc] at hok
    have hopen := open_of_live h ht hl
    have hc : ¬ (s.results.closed = true) := by simp [hopen.1]
    have hroom := room_results h ht hok.2.2.1
    simp only [performTask, hpc, Chan.send, if_neg hc, if_pos hroom] at hstep
    refine ⟨_, hstep, ?_⟩
    have := hrem { t with pc := TaskPC.deferred, sentResults := t.sentResults + 1 }
    simp only [Task.remaining, hpc, TaskPC.remaining] at this
    simp only [workLeft, State.withTask, tasksRemaining, mainRemaining, List.length_append,
      List.length_singleton]
    omega
  | sendErr e =>
    simp only [TaskOK, hpc] at hok
    have hopen := open_of_live h ht hl
    have hc : ¬ (s.errChan.closed = true) := by simp [hopen.2]
    have hroom := room_errChan h ht hok.2.2.2
    simp only [performTask, hpc, Chan.send, if_neg hc, if_pos hroom] at hstep
    refine ⟨_, hstep, ?_⟩
    have := hrem { t with pc := TaskPC.deferred, sentErrs := t.sentErrs + 1 }
    simp only [Task.remaining, hpc, TaskPC.remaining] at this
    simp only [workLeft, State.withTask, tasksRemaining, mainRemaining]
    omega
  | deferred =>
    have hwg := wg_pos_of_live h ht hl
    have hc : ¬ (s.wg - 1 < 0) := by omega
    simp only [performTask, hpc, if_neg hc] at hstep
    refine ⟨_, hstep, ?_⟩
    have := hrem { t with pc := TaskPC.exited }
    simp only [Task.remaining, hpc, TaskPC.remaining] at this
    simp only [workLeft, State.withTask, tasksRemaining, mainRemaining]
    omega
  | exited => simp [Task.live, hpc] at hl

theorem step_of_running {env : Env} {s : State} (h : Inv env s)
    (hnr : s.mainPC ≠ MainPC.returned) (a : Action) :
    step env s a =
      match a with
      | .main => mainStep env s
      | .task k =>
        match s.tasks[k]? with
        | none => none
        | some t =>
          match performTask env t s.results s.errChan s.wg with
          | .ok (t', r, e, w) =>
            some { s with tasks := s.tasks.set k t', results := r, errChan := e, wg := w }
          | .blocked => none
          | .crash => some s.abort
      | .closer => closerStep s
      | .selectResults => collectResults s
      | .selectErrChan => collectErrChan s := by
  have hc : ¬ (s.crashed = true ∨ s.mainPC = MainPC.returned) := by
    simp [h.noCrash, hnr]
  simp only [step, if_neg hc]

/-- While `main` has not returned some goroutine can run a statement that reduces
the work left: the process never deadlocks. -/
theorem progress {env : Env} {s : State} (h : Inv env s) (hnr : s.mainPC ≠ MainPC.returned) :
    ∃ a s', step env s a = some s' ∧ workLeft s' < workLeft s := by
  cases hpc : s.mainPC with
  | loopTest =>
    have hcl : s.closer = CloserPC.notStarted := h.closerStart.2 (by simp [hpc, MainPC.launching])
    by_cases hlt : s.i < s.numRoutines
    · have hst := step_of_running h hnr Action.main
      simp only [mainStep, hpc, if_pos hlt] at hst
      refine ⟨_, _, hst, ?_⟩
      · simp only [workLeft, mainRemaining, tasksRemaining, hpc]
        simp
    · have hst := step_of_running h hnr Action.main
      simp only [mainStep, hpc, if_neg hlt] at hst
      refine ⟨_, _, hst, ?_⟩
      · simp only [workLeft, mainRemaining, tasksRemaining, hpc, hcl, CloserPC.remaining]
        simp
        omega
  | loopGo =>
    have hlt := h.goLt hpc
    have hst := step_of_running h hnr Action.main
    simp only [mainStep, hpc] at hst
    refine ⟨_, _, hst, ?_⟩
    · simp only [workLeft, mainRemaining, tasksRemaining, hpc, List.map_append, List.sum_append]
      simp [Task.remaining, spawnTask, TaskPC.remaining]
      omega
  | collecting =>
    by_cases hlive : 0 < liveTasks s
    · unfold liveTasks at hlive
      rw [List.countP_pos_iff] at hlive
      obtain ⟨t, htm, hl⟩ := hlive
      obtain ⟨k, hk⟩ := List.getElem?_of_mem htm
      obtain ⟨s', h1, h2⟩ := task_progress h hk hl
      exact ⟨Action.task k, s', h1, h2⟩
    · have hzero : liveTasks s = 0 := by omega
      have hwg := h.wgEq
      simp [hpc, hzero] at hwg
      cases hcl : s.closer with
      | notStarted =>
        have := h.closerStart.1 hcl
        simp [hpc, MainPC.launching] at this
      | waiting =>
        have hst := step_of_running h hnr Action.closer
        simp only [closerStep, hcl, hwg, if_true] at hst
        refine ⟨_, _, hst, ?_⟩
        · simp only [workLeft, mainRemaining, tasksRemaining, hpc, hcl, CloserPC.remaining]
          omega
      | closeResults =>
        have hc : s.results.closed = false := by rw [h.closedR, hcl]; rfl
        have hst := step_of_running h hnr Action.closer
        simp only [closerStep, hcl, Chan.close, hc] at hst
        refine ⟨_, _, hst, ?_⟩
        · simp only [workLeft, mainRemaining, tasksRemaining, hpc, hcl, CloserPC.remaining]
          simp
      | closeErrChan =>
        have hc : s.results.closed = true := by rw [h.closedR, hcl]; rfl
        cases hbuf : s.results.buf with
        | nil =>
          have hst := step_of_running h hnr Action.selectResults
          simp only [collectResults, hpc, Chan.recv, hbuf, hc] at hst
          refine ⟨_, _, hst, ?_⟩
          · simp only [workLeft, mainRemaining, tasksRemaining, hpc, hcl, CloserPC.remaining]
            simp
        | cons v rest =>
          have hst := step_of_running h hnr Action.selectResults
          simp only [collectResults, hpc, Chan.recv, hbuf] at hst
          refine ⟨_, _, hst, ?_⟩
          · simp only [workLeft, mainRemaining, tasksRemaining, hpc, hcl, CloserPC.remaining,
              hbuf]
            simp
      | finished =>
        have hc : s.results.closed = true := by rw [h.closedR, hcl]; rfl
        cases hbuf : s.results.buf with
        | nil =>
          have hst := step_of_running h hnr Action.selectResults
          simp only [collectResults, hpc, Chan.recv, hbuf, hc] at hst
          refine ⟨_, _, hst, ?_⟩
          · simp only [workLeft, mainRemaining, tasksRemaining, hpc, hcl, CloserPC.remaining]
            simp
        | cons v rest =>
          have hst := step_of_running h hnr Action.selectResults
          simp only [collectResults, hpc, Chan.recv, hbuf] at hst
          refine ⟨_, _, hst, ?_⟩
          · simp only [workLeft, mainRemaining, tasksRemaining, hpc, hcl, CloserPC.remaining,
              hbuf]
            simp
  | returned => exact absurd hpc hnr

theorem exec_cons {env : Env} {s s1 : State} {a : Action} (as : List Action)
    (h : step env s a = some s1) : exec env s (a :: as) = exec env s1 as := by
  simp only [exec, h]

/-- From every state with the invariant some schedule lets `main` return. -/
theorem run_to_return {env : Env} (n : Nat) :
    ∀ s : State, Inv env s → workLeft s ≤ n →
      ∃ acts s', exec env s acts = some s' ∧ s'.mainPC = MainPC.returned := by
  induction n with
  | zero =>
    intro s h hn
    by_cases hr : s.mainPC = MainPC.returned
    · exact ⟨[], s, rfl, hr⟩
    · obtain ⟨a, s1, hst, hlt⟩ := progress h hr
      omega
  | succ n ih =>
    intro s h hn
    by_cases hr : s.mainPC = MainPC.returned
    · exact ⟨[], s, rfl, hr⟩
    · obtain ⟨a, s1, hst, hlt⟩ := progress h hr
      obtain ⟨acts, s', he, hret⟩ := ih s1 (inv_step h hst) (by omega)
      exact ⟨a :: acts, s', by rw [exec_cons acts hst]; exact he, hret⟩

theorem sum_add_eq_length {α : Type} (f g : α → Nat) (l : List α)
    (h : ∀ t ∈ l, f t + g t = 1) : (l.map f).sum + (l.map g).sum = l.length := by
  induction l with
  | nil => simp
  | cons x l ih =>
    have h1 := h x (by simp)
    have h2 := ih (fun t ht => h t (by simp [ht]))
    simp only [List.map_cons, List.sum_cons, List.length_cons]
    omega

theorem sum_add_le_length {α : Type} (f g : α → Nat) (l : List α)
    (h : ∀ t ∈ l, f t + g t ≤ 1) : (l.map f).sum + (l.map g).sum ≤ l.length := by
  induction l with
  | nil => simp
  | cons x l ih =>
    have h1 := h x (by simp)
    have h2 := ih (fun t ht => h t (by simp [ht]))
    simp only [List.map_cons, List.sum_cons, List.length_cons]
    omega

theorem sum_eq_zero_of {α : Type} (f : α → Nat) (l : List α)
    (h : ∀ t ∈ l, f t = 0) : (l.map f).sum = 0 := by
  induction l with
  | nil => simp
  | cons x l ih =>
    have h1 := h x (by simp)
    have h2 := ih (fun t ht => h t (by simp [ht]))
    simp only [List.map_cons, List.sum_cons]
    omega

theorem sent_sum_le_one {env : Env} {t : Task} (h : TaskOK env t) :
    t.sentResults + t.sentErrs ≤ 1 := by
  unfold TaskOK at h
  split at h
  · omega
  · omega
  · omega
  · rcases h with h | h <;> omega
  · rcases h with h | h <;> omega

theorem sentOne_of_exited {env : Env} {t : Task} (h : TaskOK env t)
    (hl : t.live = false) : t.sentOne env := by
  unfold TaskOK at h
  split at h
  · rename_i hpc; simp [Task.live, hpc] at hl
  · rename_i hpc; simp [Task.live, hpc] at hl
  · rename_i hpc; simp [Task.live, hpc] at hl
  · exact h
  · exact h

theorem all_exited {s : State} (h : liveTasks s = 0) : ∀ t ∈ s.tasks, t.live = false := by
  unfold liveTasks at h
  rw [List.countP_eq_zero] at h
  intro t ht
  have := h t ht
  simpa using this

theorem outcomesSent_le {env : Env} {s : State} (h : Inv env s) :
    outcomesSent s ≤ s.tasks.length := by
  unfold outcomesSent
  rw [h.sentR, h.sentE]
  exact sum_add_le_length _ _ _ (fun t ht => sent_sum_le_one (h.taskOK t ht))

theorem outcomesSent_eq {env : Env} {s : State} (h : Inv env s) (hd : liveTasks s = 0) :
    outcomesSent s = s.tasks.length := by
  unfold outcomesSent
  rw [h.sentR, h.sentE]
  apply sum_add_eq_length
  intro t ht
  have h1 := sentOne_of_exited (h.taskOK t ht) (all_exited hd t ht)
  rcases h1 with h1 | h1 <;> omega

theorem pastWait_of_returned {env : Env} {s : State} (h : Inv env s)
    (hr : s.mainPC = MainPC.returned) : s.closer.pastWait = true := by
  have h1 := (h.returned hr).1
  rw [h.closedR] at h1
  cases hc : s.closer <;> simp_all [CloserPC.pastWait, CloserPC.closedResults]

theorem tasks_length_of_pastWait {env : Env} {s : State} (h : Inv env s)
    (hp : s.closer.pastWait = true) : s.tasks.length = s.numRoutines := by
  have hns : s.closer ≠ CloserPC.notStarted := by
    intro hc
    rw [hc] at hp
    cases hp
  have hl : s.mainPC.launching = false := by
    cases hm : s.mainPC.launching with
    | false => rfl
    | true => exact absurd (h.closerStart.2 hm) hns
  rw [h.lenTasks, h.launched hl]

theorem getElem?_set_self_of {α : Type} {l : List α} {k : Nat} {a : α} (b : α)
    (h : l[k]? = some a) : (l.set k b)[k]? = some b := by
  have hk : k < l.length := by
    rw [List.getElem?_eq_some] at h
    exact h.1
  rw [List.getElem?_set]
  simp [hk]

theorem task_index {env : Env} {s : State} (h : Inv env s) {t : Task} (ht : t ∈ s.tasks) :
    ∃ k, s.tasks[k]? = some t ∧ t.taskID = k ∧ k < s.numRoutines := by
  obtain ⟨k, hk⟩ := List.getElem?_of_mem ht
  refine ⟨k, hk, h.taskID k t hk, ?_⟩
  have h1 : k < s.tasks.length := by
    rw [List.getElem?_eq_some] at hk
    exact hk.1
  have h2 := h.lenTasks
  have h3 := h.iLe
  omega

theorem sentErrs_zero_of_timer {env : Env} {s : State} (h : Inv env s)
    (hr : ∀ k, k < s.numRoutines → env.race k = Winner.timer) :
    ∀ t ∈ s.tasks, t.sentErrs = 0 := by
  intro t ht
  obtain ⟨k, _, hid, hk⟩ := task_index h ht
  have hw := hr k hk
  rw [← hid] at hw
  have hok := h.taskOK t ht
  unfold TaskOK at hok
  split at hok
  · exact hok.2
  · exact hok.2.2.2
  · exact hok.2.2.2
  · rcases hok with h1 | h1
    · exact h1.2.2
    · rw [hw] at h1; cases h1.1
  · rcases hok with h1 | h1
    · exact h1.2.2
    · rw [hw] at h1; cases h1.1

theorem sentResults_zero_of_done {env : Env} {s : State} (h : Inv env s)
    (hr : ∀ k, k < s.numRoutines → env.race k = Winner.done) :
    ∀ t ∈ s.tasks, t.sentResults = 0 := by
  intro t ht
  obtain ⟨k, _, hid, hk⟩ := task_index h ht
  have hw := hr k hk
  rw [← hid] at hw
  have hok := h.taskOK t ht
  unfold TaskOK at hok
  split at hok
  · exact hok.1
  · exact hok.2.2.1
  · exact hok.2.2.1
  · rcases hok with h1 | h1
    · rw [hw] at h1; cases h1.1
    · exact h1.2.1
  · rcases hok with h1 | h1
    · rw [hw] at h1; cases h1.1
    · exact h1.2.1

/-- When every race is won by the timer nothing is ever sent on `errChan`, no error line
is printed, and once the closer has passed `wg.Wait()` all `numRoutines` results are sent. -/
theorem all_timer_counts {env : Env} {s : State} (h : Inv env s)
    (hr : ∀ k, k < s.numRoutines → env.race k = Winner.timer) :
    s.errChan.nsent = 0 ∧ errorLines s = 0 ∧
    (s.closer.pastWait = true → s.results.nsent = s.numRoutines) := by
  have h0 : s.errChan.nsent = 0 := by
    rw [h.sentE]
    exact sum_eq_zero_of _ _ (sentErrs_zero_of_timer h hr)
  refine ⟨h0, ?_, ?_⟩
  · have := h.bufE
    omega
  · intro hp
    have h1 := outcomesSent_eq h (h.waited hp)
    have h2 := tasks_length_of_pastWait h hp
    unfold outcomesSent at h1
    omega

/-- When every race is won by `ctx.Done()` nothing is ever sent on `results`, no success
line is printed, and once the closer has passed `wg.Wait()` all `numRoutines` errors
are sent. -/
theorem all_done_counts {env : Env} {s : State} (h : Inv env s)
    (hr : ∀ k, k < s.numRoutines → env.race k = Winner.done) :
    s.results.nsent = 0 ∧ successLines s = 0 ∧
    (s.closer.pastWait = true → s.errChan.nsent = s.numRoutines) := by
  have h0 : s.results.nsent = 0 := by
    rw [h.sentR]
    exact sum_eq_zero_of _ _ (sentResults_zero_of_done h hr)
  refine ⟨h0, ?_, ?_⟩
  · have := h.bufR
    omega
  · intro hp
    have h1 := outcomesSent_eq h (h.waited hp)
    have h2 := tasks_length_of_pastWait h hp
    unfold outcomesSent at h1
    omega

theorem count_range (N k : Nat) : (List.range N).count k = if k < N then 1 else 0 := by
  split
  · rename_i hk
    exact List.count_eq_one_of_mem (List.nodup_range N) (List.mem_range.2 hk)
  · rename_i hk
    exact List.count_eq_zero_of_not_mem (fun hm => hk (List.mem_range.1 hm))

/-- For a task count `n ≥ 0` the channels are made and the run starts in `init n`. -/
theorem setup_of_nonneg (n : Int) (h : 0 ≤ n) : setup n = some (init n.toNat) := by
  have hn : ¬ (n < 0) := by omega
  simp [setup, makeChan, hn, init]

/-- For a task count `n < 0` the first `make` aborts the process. -/
theorem setup_of_neg (n : Int) (h : n < 0) : setup n = none := by
  simp [setup, makeChan, h]

/-! ## The effect of each statement of a task on the channels -/

theorem step_select_timer {env : Env} {s : State} {k : Nat} {t : Task} (h : Inv env s)
    (ht : s.tasks[k]? = some t) (hpc : t.pc = TaskPC.atSelect)
    (hw : env.race t.taskID = Winner.timer) :
    step env s (Action.task k) =
      some (s.withTask k { t with pc := TaskPC.sendResult (taskResult env t) }
        s.results s.errChan s.wg) := by
  have hstep := step_task_of h ht (by simp [Task.live, hpc])
  simp only [performTask, hpc, hw] at hstep
  exact hstep

theorem step_select_done {env : Env} {s : State} {k : Nat} {t : Task} (h : Inv env s)
    (ht : s.tasks[k]? = some t) (hpc : t.pc = TaskPC.atSelect)
    (hw : env.race t.taskID = Winner.done) :
    step env s (Action.task k) =
      some (s.withTask k { t with pc := TaskPC.sendErr ctxErr } s.results s.errChan s.wg) := by
  have hstep := step_task_of h ht (by simp [Task.live, hpc])
  simp only [performTask, hpc, hw] at hstep
  exact hstep

theorem step_sendResult {env : Env} {s : State} {k : Nat} {t : Task} {r : TaskResult}
    (h : Inv env s) (ht : s.tasks[k]? = some t) (hpc : t.pc = TaskPC.sendResult r) :
    step env s (Action.task k) =
      some (s.withTask k { t with pc := TaskPC.deferred, sentResults := t.sentResults + 1 }
        { s.results with buf := s.results.buf ++ [r], nsent := s.results.nsent + 1 }
        s.errChan s.wg) := by
  have hl : t.live = true := by simp [Task.live, hpc]
  have hok := h.taskOK t (mem_of_getElem?_eq ht)
  simp only [TaskOK, hpc] at hok
  have hopen := open_of_live h ht hl
  have hc : ¬ (s.results.closed = true) := by simp [hopen.1]
  have hroom := room_results h ht hok.2.2.1
  have hstep := step_task_of h ht hl
  simp only [performTask, hpc, Chan.send, if_neg hc, if_pos hroom] at hstep
  exact hstep

theorem step_sendErr {env : Env} {s : State} {k : Nat} {t : Task} {e : GoError}
    (h : Inv env s) (ht : s.tasks[k]? = some t) (hpc : t.pc = TaskPC.sendErr e) :
    step env s (Action.task k) =
      some (s.withTask k { t with pc := TaskPC.deferred, sentErrs := t.sentErrs + 1 }
        s.results
        { s.errChan with buf := s.errChan.buf ++ [e], nsent := s.errChan.nsent + 1 }
        s.wg) := by
  have hl : t.live = true := by simp [Task.live, hpc]
  have hok := h.taskOK t (mem_of_getElem?_eq ht)
  simp only [TaskOK, hpc] at hok
  have hopen := open_of_live h ht hl
  have hc : ¬ (s.errChan.closed = true) := by simp [hopen.2]
  have hroom := room_errChan h ht hok.2.2.2
  have hstep := step_task_of h ht hl
  simp only [performTask, hpc, Chan.send, if_neg hc, if_pos hroom] at hstep
  exact hstep

theorem step_deferred {env : Env} {s : State} {k : Nat} {t : Task}
    (h : Inv env s) (ht : s.tasks[k]? = some t) (hpc : t.pc = TaskPC.deferred) :
    step env s (Action.task k) =
      some (s.withTask k { t with pc := TaskPC.exited } s.results s.errChan (s.wg - 1)) := by
  have hl : t.live = true := by simp [Task.live, hpc]
  have hwg := wg_pos_of_live h ht hl
  have hc : ¬ (s.wg - 1 < 0) := by omega
  have hstep := step_task_of h ht hl
  simp only [performTask, hpc, if_neg hc] at hstep
  exact hstep

theorem step_exited {env : Env} {s : State} {k : Nat} {t : Task}
    (ht : s.tasks[k]? = some t) (hpc : t.pc = TaskPC.exited) :
    step env s (Action.task k) = none := by
  unfold step
  split
  · rfl
  · simp only [ht, performTask, hpc]

/-- A task whose timer wins, run alone from its `select` to its end: the three statements
run, one `TaskResult` carrying its identifier is appended to `results`, `errChan` is left
as it was, and the WaitGroup counter is decremented once. -/
theorem task_alone_timer {env : Env} {s : State} {k : Nat} {t : Task} (h : Inv env s)
    (ht : s.tasks[k]? = some t) (hpc : t.pc = TaskPC.atSelect)
    (hw : env.race k = Winner.timer) :
    ∃ s', exec env s [Action.task k, Action.task k, Action.task k] = some s' ∧
      s'.crashed = false ∧
      s'.results.buf = s.results.buf ++ [taskResult env t] ∧
      (taskResult env t).TaskID = k ∧
      s'.results.nsent = s.results.nsent + 1 ∧
      s'.errChan = s.errChan ∧ s'.wg = s.wg - 1 ∧
      ∃ t', s'.tasks[k]? = some t' ∧ t'.pc = TaskPC.exited := by
  have hid := h.taskID k t ht
  have hst1 := step_select_timer h ht hpc (by rw [hid]; exact hw)
  have h1 := inv_step h hst1
  have ht1 := getElem?_set_self_of
    ({ t with pc := TaskPC.sendResult (taskResult env t) } : Task) ht
  have hst2 := step_sendResult (r := taskResult env t) h1 ht1 rfl
  have h2 := inv_step h1 hst2
  have ht2 := getElem?_set_self_of
    ({ t with pc := TaskPC.deferred, sentResults := t.sentResults + 1 } : Task) ht1
  have hst3 := step_deferred h2 ht2 rfl
  have h3 := inv_step h2 hst3
  have ht3 := getElem?_set_self_of
    ({ t with pc := TaskPC.exited, sentResults := t.sentResults + 1 } : Task) ht2
  refine ⟨_, ?_, h3.noCrash, rfl, hid, rfl, rfl, rfl, _, ht3, rfl⟩
  rw [exec_cons _ hst1, exec_cons _ hst2, exec_cons _ hst3]
  rfl

/-- A task whose race is won by `ctx.Done()`, run alone from its `select` to its end: the
three statements run, one error is appended to `errChan`, `results` is left as it was,
and the WaitGroup counter is decremented once. -/
theorem task_alone_done {env : Env} {s : State} {k : Nat} {t : Task} (h : Inv env s)
    (ht : s.tasks[k]? = some t) (hpc : t.pc = TaskPC.atSelect)
    (hw : env.race k = Winner.done) :
    ∃ s', exec env s [Action.task k, Action.task k, Action.task k] = some s' ∧
      s'.crashed = false ∧
      s'.errChan.buf = s.errChan.buf ++ [ctxErr] ∧
      s'.errChan.nsent = s.errChan.nsent + 1 ∧
      s'.results = s.results ∧ s'.wg = s.wg - 1 ∧
      ∃ t', s'.tasks[k]? = some t' ∧ t'.pc = TaskPC.exited := by
  have hid := h.taskID k t ht
  have hst1 := step_select_done h ht hpc (by rw [hid]; exact hw)
  have h1 := inv_step h hst1
  have ht1 := getElem?_set_self_of ({ t with pc := TaskPC.sendErr ctxErr } : Task) ht
  have hst2 := step_sendErr (e := ctxErr) h1 ht1 rfl
  have h2 := inv_step h1 hst2
  have ht2 := getElem?_set_self_of
    ({ t with pc := TaskPC.deferred, sentErrs := t.sentErrs + 1 } : Task) ht1
  have hst3 := step_deferred h2 ht2 rfl
  have h3 := inv_step h2 hst3
  have ht3 := getElem?_set_self_of
    ({ t with pc := TaskPC.exited, sentErrs := t.sentErrs + 1 } : Task) ht2
  refine ⟨_, ?_, h3.noCrash, rfl, rfl, rfl, rfl, _, ht3, rfl⟩
  rw [exec_cons _ hst1, exec_cons _ hst2, exec_cons _ hst3]
  rfl

/-! ## Tasks whose race has a known winner -/

/-- No statement of a task whose timer wins touches `errChan`. -/
theorem task_step_keeps_errChan {env : Env} {s s' : State} {k : Nat} {t : Task}
    (h : Inv env s) (ht : s.tasks[k]? = some t) (hw : env.race k = Winner.timer)
    (hst : step env s (Action.task k) = some s') :
    s'.errChan = s.errChan ∧ s'.results.nsent ≤ s.results.nsent + 1 ∧ s'.crashed = false := by
  have hid := h.taskID k t ht
  have hok := h.taskOK t (mem_of_getElem?_eq ht)
  have hnc := (inv_step h hst).noCrash
  cases hpc : t.pc with
  | atSelect =>
    rw [step_select_timer h ht hpc (by rw [hid]; exact hw)] at hst
    cases hst
    exact ⟨rfl, Nat.le_succ _, hnc⟩
  | sendResult r =>
    rw [step_sendResult h ht hpc] at hst
    cases hst
    exact ⟨rfl, Nat.le_refl _, hnc⟩
  | sendErr e =>
    simp only [TaskOK, hpc] at hok
    rw [hid, hw] at hok
    cases hok.1
  | deferred =>
    rw [step_deferred h ht hpc] at hst
    cases hst
    exact ⟨rfl, Nat.le_succ _, hnc⟩
  | exited =>
    rw [step_exited ht hpc] at hst
    cases hst

/-- No statement of a task whose race is won by `ctx.Done()` touches `results`. -/
theorem task_step_keeps_results {env : Env} {s s' : State} {k : Nat} {t : Task}
    (h : Inv env s) (ht : s.tasks[k]? = some t) (hw : env.race k = Winner.done)
    (hst : step env s (Action.task k) = some s') :
    s'.results = s.results ∧ s'.errChan.nsent ≤ s.errChan.nsent + 1 ∧ s'.crashed = false := by
  have hid := h.taskID k t ht
  have hok := h.taskOK t (mem_of_getElem?_eq ht)
  have hnc := (inv_step h hst).noCrash
  cases hpc : t.pc with
  | atSelect =>
    rw [step_select_done h ht hpc (by rw [hid]; exact hw)] at hst
    cases hst
    exact ⟨rfl, Nat.le_succ _, hnc⟩
  | sendResult r =>
    simp only [TaskOK, hpc] at hok
    rw [hid, hw] at hok
    cases hok.1
  | sendErr e =>
    rw [step_sendErr h ht hpc] at hst
    cases hst
    exact ⟨rfl, Nat.le_refl _, hnc⟩
  | deferred =>
    rw [step_deferred h ht hpc] at hst
    cases hst
    exact ⟨rfl, Nat.le_succ _, hnc⟩
  | exited =>
    rw [step_exited ht hpc] at hst
    cases hst

/-- A task whose timer wins never stands at the send on `errChan` and has counted no
error; past its send it has counted one result. -/
theorem task_of_timer {env : Env} {s : State} {k : Nat} {t : Task}
    (h : Inv env s) (ht : s.tasks[k]? = some t) (hw : env.race k = Winner.timer) :
    t.sentErrs = 0 ∧ (∀ e, t.pc ≠ TaskPC.sendErr e) ∧
    (t.pc = TaskPC.deferred ∨ t.pc = TaskPC.exited → t.sentResults = 1) := by
  have hid := h.taskID k t ht
  have hok := h.taskOK t (mem_of_getElem?_eq ht)
  rw [← hid] at hw
  cases hpc : t.pc with
  | atSelect =>
    simp only [TaskOK, hpc] at hok
    exact ⟨hok.2, fun e => by simp, fun hp => by simp at hp⟩
  | sendResult r =>
    simp only [TaskOK, hpc] at hok
    exact ⟨hok.2.2.2, fun e => by simp, fun hp => by simp at hp⟩
  | sendErr e =>
    simp only [TaskOK, hpc] at hok
    rw [hw] at hok
    cases hok.1
  | deferred =>
    simp only [TaskOK, hpc, Task.sentOne] at hok
    rcases hok with h1 | h1
    · exact ⟨h1.2.2, fun e => by simp, fun _ => h1.2.1⟩
    · rw [hw] at h1; cases h1.1
  | exited =>
    simp only [TaskOK, hpc, Task.sentOne] at hok
    rcases hok with h1 | h1
    · exact ⟨h1.2.2, fun e => by simp, fun _ => h1.2.1⟩
    · rw [hw] at h1; cases h1.1

/-- A task whose race is won by `ctx.Done()` never stands at the send on `results` and has
counted no result; past its send it has counted one error. -/
theorem task_of_done {env : Env} {s : State} {k : Nat} {t : Task}
    (h : Inv env s) (ht : s.tasks[k]? = some t) (hw : env.race k = Winner.done) :
    t.sentResults = 0 ∧ (∀ r, t.pc ≠ TaskPC.sendResult r) ∧
    (t.pc = TaskPC.deferred ∨ t.pc = TaskPC.exited → t.sentErrs = 1) := by
  have hid := h.taskID k t ht
  have hok := h.taskOK t (mem_of_getElem?_eq ht)
  rw [← hid] at hw
  cases hpc : t.pc with
  | atSelect =>
    simp only [TaskOK, hpc] at hok
    exact ⟨hok.1, fun e => by simp, fun hp => by simp at hp⟩
  | sendResult r =>
    simp only [TaskOK, hpc] at hok
    rw [hw] at hok
    cases hok.1
  | sendErr e =>
    simp only [TaskOK, hpc] at hok
    exact ⟨hok.2.2.1, fun e => by simp, fun hp => by simp at hp⟩
  | deferred =>
    simp only [TaskOK, hpc, Task.sentOne] at hok
    rcases hok with h1 | h1
    · rw [hw] at h1; cases h1.1
    · exact ⟨h1.2.1, fun e => by simp, fun _ => h1.2.2⟩
  | exited =>
    simp only [TaskOK, hpc, Task.sentOne] at hok
    rcases hok with h1 | h1
    · rw [hw] at h1; cases h1.1
    · exact ⟨h1.2.1, fun e => by simp, fun _ => h1.2.2⟩

/-- A timer that fires before the closing of `ctx.Done()` can reach the task wins. -/
theorem selectWinner_timer {arrive timerAt doneAt : Nat} (tie : Bool)
    (h : timerAt < doneAt) (ha : arrive ≤ timerAt) :
    selectWinner arrive timerAt doneAt tie = Winner.timer := by
  unfold selectWinner
  have h1 : ¬ (timerAt ≤ arrive ∧ doneAt ≤ arrive) := by omega
  have h3 : ¬ (doneAt ≤ arrive) := by omega
  rw [if_neg h1]
  by_cases h2 : timerAt ≤ arrive
  · rw [if_pos h2]
  · rw [if_neg h2, if_neg h3, if_pos h]

/-- A closing of `ctx.Done()` that reaches the task before its timer fires wins, provided
the timer is not ready on arrival. -/
theorem selectWinner_done {arrive timerAt doneAt : Nat} (tie : Bool)
    (h : doneAt < timerAt) (ha : arrive < timerAt) :
    selectWinner arrive timerAt doneAt tie = Winner.done := by
  unfold selectWinner
  have h1 : ¬ (timerAt ≤ arrive ∧ doneAt ≤ arrive) := by omega
  have h2 : ¬ (timerAt ≤ arrive) := by omega
  have h4 : ¬ (timerAt < doneAt) := by omega
  rw [if_neg h1, if_neg h2]
  by_cases h3 : doneAt ≤ arrive
  · rw [if_pos h3]
  · rw [if_neg h3, if_neg h4, if_pos h]

/-! ## The claims -/

/-- C5 (the code aborts where the claim says it cannot): on the command line
`prog -1` the task count resolved by `main` is `-1`, and `make(chan TaskResult, -1)`
aborts the process before any task is launched; on `prog 0` the count is `0`,
which is not positive either. -/
theorem mainSetup_negative_aborts :
    numRoutines ["prog", "-1"] = -1 ∧ mainSetup ["prog", "-1"] = none ∧
    numRoutines ["prog", "0"] = 0 := by
  decide

/-- C6: the task count resolved by `main` is 100000 when there is no positional
argument or when `Atoi` fails on the first one (non-numeric text and out-of-range
values included), it is the parsed integer otherwise, and arguments after the
first have no effect. -/
theorem numRoutines_resolution (osArgs : List String) :
    (osArgs.length ≤ 1 → numRoutines osArgs = 100000) ∧
    (∀ prog a rest, osArgs = prog :: a :: rest →
      (Atoi a = none → numRoutines osArgs = 100000) ∧
      (∀ n, Atoi a = some n → numRoutines osArgs = n) ∧
      (∀ rest', numRoutines (prog :: a :: rest') = numRoutines osArgs)) ∧
    Atoi "abc" = none ∧ Atoi "" = none ∧ Atoi "12x" = none ∧
    Atoi "9223372036854775808" = none ∧ Atoi "-9223372036854775809" = none := by
  refine ⟨?_, ?_, by decide, by decide, by decide, by decide, by decide⟩
  · intro h
    have : ¬ (osArgs.length > 1) := by omega
    simp only [numRoutines, if_neg this]
  · intro prog a rest hargs
    subst hargs
    refine ⟨?_, ?_, ?_⟩
    · intro ha
      simp [numRoutines, ha]
    · intro n ha
      simp [numRoutines, ha]
    · intro rest'
      simp [numRoutines]

/-- Witness of C6 on three command lines: no argument, a non-numeric first argument
followed by a number, and a numeric first argument followed by text. -/
theorem numRoutines_resolution_witness :
    numRoutines ["prog"] = 100000 ∧ numRoutines ["prog", "abc", "7"] = 100000 ∧
    numRoutines ["prog", "42", "x"] = 42 :=
  ⟨(numRoutines_resolution ["prog"]).1 (by decide),
   ((numRoutines_resolution ["prog", "abc", "7"]).2.1 "prog" "abc" ["7"] rfl).1 (by decide),
   ((numRoutines_resolution ["prog", "42", "x"]).2.1 "prog" "42" ["x"] rfl).2.1 42 (by decide)⟩

/-- C1 (the code loses an outcome where the claim says it cannot): with one task whose
race is won by `ctx.Done()`, the task sends its error on `errChan`, the closer closes both
channels, and the collector's `select` takes the closed `results` case: `main` returns
having collected 0 outcomes out of the 1 sent, the error still buffered in `errChan`. -/
theorem collector_drops_error :
    (exec (constEnv Winner.done) (init 1) dropSchedule).map
        (fun s => (s.mainPC, outcomesSent s, collected s, s.errChan.buf)) =
      some (MainPC.returned, 1, 0, [GoError.deadlineExceeded]) := by
  decide

/-- C2: in every run of the program with `N ≥ 0` tasks, whatever the winners of the
races, the tasks never send more than `N` outcomes, they have sent exactly `N`
(results plus errors) once all of them have terminated, hence whenever the closer has
passed `wg.Wait()` or `main` has returned, and every run can be continued until `main`
returns with exactly `N` outcomes sent. For `N = 0` that is zero outcomes. -/
theorem dispatcher_sends_N (env : Env) (N : Nat) (acts : List Action) (s : State)
    (hs : exec env (init N) acts = some s) :
    outcomesSent s ≤ N ∧
    (allTasksDone s → s.results.nsent + s.errChan.nsent = N) ∧
    (s.closer.pastWait = true → s.results.nsent + s.errChan.nsent = N) ∧
    (s.mainPC = MainPC.returned → s.results.nsent + s.errChan.nsent = N) ∧
    (∃ acts' s', exec env s acts' = some s' ∧ s'.mainPC = MainPC.returned ∧
      s'.results.nsent + s'.errChan.nsent = N) := by
  have h := inv_reachable hs
  have hN : s.numRoutines = N := numRoutines_exec hs
  have hpw : s.closer.pastWait = true → s.results.nsent + s.errChan.nsent = N := by
    intro hp
    have h1 := outcomesSent_eq h (h.waited hp)
    have h2 := tasks_length_of_pastWait h hp
    unfold outcomesSent at h1
    omega
  refine ⟨?_, ?_, hpw, ?_, ?_⟩
  · have h1 := outcomesSent_le h
    have h2 := h.lenTasks
    have h3 := h.iLe
    omega
  · intro hd
    have h1 := outcomesSent_eq h hd.2
    have h2 := hd.1
    unfold outcomesSent at h1
    omega
  · intro hr
    exact hpw (pastWait_of_returned h hr)
  · obtain ⟨acts', s', he, hret⟩ := run_to_return (workLeft s) s h (Nat.le_refl _)
    refine ⟨acts', s', he, hret, ?_⟩
    have h' := inv_exec h he
    have hN' : s'.numRoutines = N := by rw [numRoutines_exec he, hN]
    have hp := pastWait_of_returned h' hret
    have h1 := outcomesSent_eq h' (h'.waited hp)
    have h2 := tasks_length_of_pastWait h' hp
    unfold outcomesSent at h1
    omega

/-- Witness of C2: a run with one task whose race is won by `ctx.Done()`; one outcome
has been sent when `main` returns. -/
theorem dispatcher_sends_N_witness :
    exec (constEnv Winner.done) (init 1) drainSchedule
        = some (finalState (constEnv Winner.done) 1 drainSchedule) ∧
    (finalState (constEnv Winner.done) 1 drainSchedule).mainPC = MainPC.returned ∧
    (finalState (constEnv Winner.done) 1 drainSchedule).results.nsent
      + (finalState (constEnv Winner.done) 1 drainSchedule).errChan.nsent = 1 :=
  ⟨by decide, by decide,
    (dispatcher_sends_N (constEnv Winner.done) 1 drainSchedule _ (by decide)).2.2.2.1
      (by decide)⟩

/-- C3: in every run and every interleaving, one execution of `performTask` for the
identifier `k` sends exactly one outcome. Its `select` statement sends nothing; then,
when the timer won, its send appends exactly one `TaskResult` carrying `k` to `results`
and leaves `errChan` untouched, and when `ctx.Done()` won its send appends exactly one
non-nil error to `errChan` and leaves `results` untouched; its deferred `wg.Done()` sends
nothing and decrements the counter; an exited task runs no further statement. Every
statement is enabled when reached, so the task is never stuck, and run alone from its
`select` it reaches its end with that single outcome in the channel. The history counters
agree: the sends counted on each channel are the sum of those counted by the tasks, and a
task past its send has counted one. -/
theorem performTask_one_outcome (env : Env) (N : Nat) (acts : List Action) (s : State)
    (k : Nat) (t : Task) (hs : exec env (init N) acts = some s)
    (ht : s.tasks[k]? = some t) :
    t.taskID = k ∧
    s.results.nsent = (s.tasks.map Task.sentResults).sum ∧
    s.errChan.nsent = (s.tasks.map Task.sentErrs).sum ∧
    (t.pc ≠ TaskPC.deferred → t.pc ≠ TaskPC.exited → t.sentResults = 0 ∧ t.sentErrs = 0) ∧
    (t.pc = TaskPC.deferred ∨ t.pc = TaskPC.exited →
      (env.race k = Winner.timer ∧ t.sentResults = 1 ∧ t.sentErrs = 0) ∨
      (env.race k = Winner.done ∧ t.sentResults = 0 ∧ t.sentErrs = 1)) ∧
    (t.pc = TaskPC.atSelect →
      ∃ s', step env s (Action.task k) = some s' ∧ s'.crashed = false ∧
        s'.results = s.results ∧ s'.errChan = s.errChan ∧ s'.wg = s.wg ∧
        (env.race k = Winner.timer →
          s'.tasks[k]? = some { t with pc := TaskPC.sendResult (taskResult env t) }) ∧
        (env.race k = Winner.done →
          s'.tasks[k]? = some { t with pc := TaskPC.sendErr ctxErr })) ∧
    (∀ r, t.pc = TaskPC.sendResult r →
      env.race k = Winner.timer ∧ r.TaskID = k ∧
      ∃ s', step env s (Action.task k) = some s' ∧ s'.crashed = false ∧
        s'.results.buf = s.results.buf ++ [r] ∧ s'.results.nsent = s.results.nsent + 1 ∧
        s'.errChan = s.errChan ∧ s'.wg = s.wg ∧
        s'.tasks[k]? = some { t with pc := TaskPC.deferred, sentResults := t.sentResults + 1 }) ∧
    (∀ e, t.pc = TaskPC.sendErr e →
      env.race k = Winner.done ∧ e ≠ GoError.nil ∧
      ∃ s', step env s (Action.task k) = some s' ∧ s'.crashed = false ∧
        s'.errChan.buf = s.errChan.buf ++ [e] ∧ s'.errChan.nsent = s.errChan.nsent + 1 ∧
        s'.results = s.results ∧ s'.wg = s.wg ∧
        s'.tasks[k]? = some { t with pc := TaskPC.deferred, sentErrs := t.sentErrs + 1 }) ∧
    (t.pc = TaskPC.deferred →
      ∃ s', step env s (Action.task k) = some s' ∧ s'.crashed = false ∧
        s'.results = s.results ∧ s'.errChan = s.errChan ∧ s'.wg = s.wg - 1 ∧
        s'.tasks[k]? = some { t with pc := TaskPC.exited }) ∧
    (t.pc = TaskPC.exited → step env s (Action.task k) = none) ∧
    (t.pc = TaskPC.atSelect → env.race k = Winner.timer →
      ∃ s', exec env s [Action.task k, Action.task k, Action.task k] = some s' ∧
        s'.crashed = false ∧
        s'.results.buf = s.results.buf ++ [taskResult env t] ∧
        (taskResult env t).TaskID = k ∧
        s'.results.nsent = s.results.nsent + 1 ∧
        s'.errChan = s.errChan ∧ s'.wg = s.wg - 1 ∧
        ∃ t', s'.tasks[k]? = some t' ∧ t'.pc = TaskPC.exited) ∧
    (t.pc = TaskPC.atSelect → env.race k = Winner.done →
      ∃ s', exec env s [Action.task k, Action.task k, Action.task k] = some s' ∧
        s'.crashed = false ∧
        s'.errChan.buf = s.errChan.buf ++ [ctxErr] ∧
        s'.errChan.nsent = s.errChan.nsent + 1 ∧
        s'.results = s.results ∧ s'.wg = s.wg - 1 ∧
        ∃ t', s'.tasks[k]? = some t' ∧ t'.pc = TaskPC.exited) := by
  have h := inv_reachable hs
  have hid := h.taskID k t ht
  have hok := h.taskOK t (mem_of_getElem?_eq ht)
  refine ⟨hid, h.sentR, h.sentE, ?_, ?_, ?_, ?_, ?_, ?_, ?_, ?_, ?_⟩
  · intro h1 h2
    unfold TaskOK at hok
    split at hok
    · exact hok
    · exact hok.2.2
    · exact hok.2.2
    · rename_i hpc; exact absurd hpc h1
    · rename_i hpc; exact absurd hpc h2
  · intro hpc
    rw [← hid]
    rcases hpc with hpc | hpc
    · simpa [TaskOK, hpc, Task.sentOne] using hok
    · simpa [TaskOK, hpc, Task.sentOne] using hok
  · intro hpc
    cases hw : env.race k with
    | timer =>
      have hst := step_select_timer h ht hpc (by rw [hid]; exact hw)
      refine ⟨_, hst, (inv_step h hst).noCrash, rfl, rfl, rfl, ?_, ?_⟩
      · intro _
        exact getElem?_set_self_of _ ht
      · intro hd
        cases hd
    | done =>
      have hst := step_select_done h ht hpc (by rw [hid]; exact hw)
      refine ⟨_, hst, (inv_step h hst).noCrash, rfl, rfl, rfl, ?_, ?_⟩
      · intro hd
        cases hd
      · intro _
        exact getElem?_set_self_of _ ht
  · intro r hpc
    simp only [TaskOK, hpc] at hok
    have hst := step_sendResult h ht hpc
    refine ⟨by rw [← hid]; exact hok.1, by rw [hok.2.1, hid], _, hst,
      (inv_step h hst).noCrash, rfl, rfl, rfl, rfl, getElem?_set_self_of _ ht⟩
  · intro e hpc
    simp only [TaskOK, hpc] at hok
    have hst := step_sendErr h ht hpc
    refine ⟨by rw [← hid]; exact hok.1, hok.2.1, _, hst,
      (inv_step h hst).noCrash, rfl, rfl, rfl, rfl, getElem?_set_self_of _ ht⟩
  · intro hpc
    have hst := step_deferred h ht hpc
    exact ⟨_, hst, (inv_step h hst).noCrash, rfl, rfl, rfl, getElem?_set_self_of _ ht⟩
  · intro hpc
    exact step_exited ht hpc
  · intro hpc hw
    exact task_alone_timer h ht hpc hw
  · intro hpc hw
    exact task_alone_done h ht hpc hw

/-- Witness of C3: task 0 of a run with one task, standing at its `select` with the timer
winning: run to its end it leaves exactly one result, carrying the identifier 0, in
`results` and nothing in `errChan`. -/
theorem performTask_one_outcome_witness :
    ∃ s', exec (constEnv Winner.timer) (finalState (constEnv Winner.timer) 1 [.main, .main])
        [Action.task 0, Action.task 0, Action.task 0] = some s' ∧
      s'.crashed = false ∧
      s'.results.buf = (finalState (constEnv Winner.timer) 1 [.main, .main]).results.buf
        ++ [taskResult (constEnv Winner.timer) (spawnTask (constEnv Winner.timer) 0)] ∧
      (taskResult (constEnv Winner.timer) (spawnTask (constEnv Winner.timer) 0)).TaskID = 0 ∧
      s'.results.nsent = (finalState (constEnv Winner.timer) 1 [.main, .main]).results.nsent + 1 ∧
      s'.errChan = (finalState (constEnv Winner.timer) 1 [.main, .main]).errChan ∧
      s'.wg = (finalState (constEnv Winner.timer) 1 [.main, .main]).wg - 1 ∧
      ∃ t', s'.tasks[0]? = some t' ∧ t'.pc = TaskPC.exited :=
  (performTask_one_outcome (constEnv Winner.timer) 1 [.main, .main]
    (finalState (constEnv Winner.timer) 1 [.main, .main])
    0 (spawnTask (constEnv Winner.timer) 0) (by decide) (by decide)).2.2.2.2.2.2.2.2.2.2.1
    rfl rfl

/-- C8: in every run, a task that stands at its send on `results` (or on `errChan`) finds
strictly fewer buffered items than the capacity `N` of that channel, which is open:
the send is enabled, does not abort, and appends the value to the buffer. No task
ever blocks on its send, however little the collector has drained. -/
theorem send_never_blocks (env : Env) (N : Nat) (acts : List Action) (s : State)
    (k : Nat) (t : Task) (hs : exec env (init N) acts = some s)
    (ht : s.tasks[k]? = some t) :
    (∀ r, t.pc = TaskPC.sendResult r →
      s.results.cap = N ∧ s.results.buf.length < N ∧ s.results.closed = false ∧
      ∃ s', step env s (Action.task k) = some s' ∧ s'.crashed = false ∧
        s'.results.buf = s.results.buf ++ [r]) ∧
    (∀ e, t.pc = TaskPC.sendErr e →
      s.errChan.cap = N ∧ s.errChan.buf.length < N ∧ s.errChan.closed = false ∧
      ∃ s', step env s (Action.task k) = some s' ∧ s'.crashed = false ∧
        s'.errChan.buf = s.errChan.buf ++ [e]) := by
  have h := inv_reachable hs
  have hN : s.numRoutines = N := numRoutines_exec hs
  have hok := h.taskOK t (mem_of_getElem?_eq ht)
  constructor
  · intro r hpc
    have hl : t.live = true := by simp [Task.live, hpc]
    simp only [TaskOK, hpc] at hok
    have hopen := open_of_live h ht hl
    have hc : ¬ (s.results.closed = true) := by simp [hopen.1]
    have hroom := room_results h ht hok.2.2.1
    have hcap := h.capResults
    have hstep := step_task_of h ht hl
    simp only [performTask, hpc, Chan.send, if_neg hc, if_pos hroom] at hstep
    refine ⟨by omega, by omega, hopen.1, _, hstep, ?_, rfl⟩
    exact (inv_step h hstep).noCrash
  · intro e hpc
    have hl : t.live = true := by simp [Task.live, hpc]
    simp only [TaskOK, hpc] at hok
    have hopen := open_of_live h ht hl
    have hc : ¬ (s.errChan.closed = true) := by simp [hopen.2]
    have hroom := room_errChan h ht hok.2.2.2
    have hcap := h.capErrChan
    have hstep := step_task_of h ht hl
    simp only [performTask, hpc, Chan.send, if_neg hc, if_pos hroom] at hstep
    refine ⟨by omega, by omega, hopen.2, _, hstep, ?_, rfl⟩
    exact (inv_step h hstep).noCrash

/-- Witness of C8: task 0 of a run with one task, standing at its send on `results`. -/
theorem send_never_blocks_witness :
    (finalState (constEnv Winner.timer) 1 [.main, .main, .task 0]).results.cap = 1 ∧
    (finalState (constEnv Winner.timer) 1 [.main, .main, .task 0]).results.buf.length < 1 ∧
    (finalState (constEnv Winner.timer) 1 [.main, .main, .task 0]).results.closed = false ∧
    ∃ s', step (constEnv Winner.timer)
        (finalState (constEnv Winner.timer) 1 [.main, .main, .task 0]) (Action.task 0) = some s' ∧
      s'.crashed = false ∧
      s'.results.buf =
        (finalState (constEnv Winner.timer) 1 [.main, .main, .task 0]).results.buf
          ++ [⟨0, 0, 0, 0, 10000000000, 10000000000⟩] :=
  (send_never_blocks (constEnv Winner.timer) 1 [.main, .main, .task 0]
    (finalState (constEnv Winner.timer) 1 [.main, .main, .task 0]) 0
    { taskID := 0, startMemory := 0, startTime := 0,
      pc := TaskPC.sendResult ⟨0, 0, 0, 0, 10000000000, 10000000000⟩,
      sentResults := 0, sentErrs := 0 }
    (by decide) (by decide)).1 ⟨0, 0, 0, 0, 10000000000, 10000000000⟩ rfl

theorem step_of_returned (env : Env) {s : State} (h : s.mainPC = MainPC.returned)
    (a : Action) : step env s a = none := by
  simp [step, h]

/-- C7 as stated fails: with no task, the closer passes `wg.Wait()` and closes `results`,
the collector sees `results` closed and `main` returns, which ends the process: the run
is over (no goroutine can run) and `errChan` has been closed zero times, not once. -/
theorem errChan_not_closed_at_return :
    exec (constEnv Winner.timer) (init 0) earlyReturnSchedule
      = some (finalState (constEnv Winner.timer) 0 earlyReturnSchedule) ∧
    terminal (constEnv Winner.timer) (finalState (constEnv Winner.timer) 0 earlyReturnSchedule) ∧
    (finalState (constEnv Winner.timer) 0 earlyReturnSchedule).results.nclose = 1 ∧
    (finalState (constEnv Winner.timer) 0 earlyReturnSchedule).errChan.nclose = 0 :=
  ⟨by decide, fun a => step_of_returned _ (by decide) a, by decide, by decide⟩

/-- C7, amended: in every run with `N ≥ 0` tasks and every interleaving, no panic occurs,
each of `results` and `errChan` is closed at most once, a closed channel has been closed
exactly once and only after all `N` tasks were launched and have terminated with the
WaitGroup counter back at zero, so no task stands at a send on a closed channel;
`results` has been closed exactly once when `main` returns, and both channels exactly
once when the closer goroutine has finished. -/
theorem channels_closed_once_after_tasks (env : Env) (N : Nat) (acts : List Action)
    (s : State) (hs : exec env (init N) acts = some s) :
    s.crashed = false ∧
    s.results.nclose ≤ 1 ∧ s.errChan.nclose ≤ 1 ∧
    (0 < s.results.nclose ∨ 0 < s.errChan.nclose →
      s.tasks.length = N ∧ (∀ t ∈ s.tasks, t.pc = TaskPC.exited) ∧ s.wg = 0) ∧
    (s.results.closed = true ↔ s.results.nclose = 1) ∧
    (s.errChan.closed = true ↔ s.errChan.nclose = 1) ∧
    (∀ (k : Nat) (t : Task), s.tasks[k]? = some t →
      (∀ r, t.pc = TaskPC.sendResult r → s.results.closed = false) ∧
      (∀ e, t.pc = TaskPC.sendErr e → s.errChan.closed = false)) ∧
    (s.mainPC = MainPC.returned → s.results.nclose = 1) ∧
    (s.closer = CloserPC.finished → s.results.nclose = 1 ∧ s.errChan.nclose = 1) := by
  have h := inv_reachable hs
  have hN : s.numRoutines = N := numRoutines_exec hs
  have hnR := h.ncloseR
  have hnE := h.ncloseE
  have hcR := h.closedR
  have hcE := h.closedE
  refine ⟨h.noCrash, ?_, ?_, ?_, ?_, ?_, ?_, ?_, ?_⟩
  · split at hnR <;> omega
  · split at hnE <;> omega
  · intro hc
    have hp : s.closer.pastWait = true := by
      cases hcl : s.closer <;>
        simp_all [CloserPC.pastWait, CloserPC.closedResults, CloserPC.closedErrChan]
    have hz := h.waited hp
    have hlen := tasks_length_of_pastWait h hp
    refine ⟨by omega, ?_, ?_⟩
    · intro t ht
      have := all_exited hz t ht
      simpa [Task.live] using this
    · have hw := h.wgEq
      have hnl : s.mainPC ≠ MainPC.loopGo := by
        intro hgo
        have := h.closerStart.2 (by simp [hgo, MainPC.launching])
        rw [this] at hp
        cases hp
      simp [hnl, hz] at hw
      exact hw
  · cases hc : s.results.closed <;> simp [hc] at hnR ⊢ <;> omega
  · cases hc : s.errChan.closed <;> simp [hc] at hnE ⊢ <;> omega
  · intro k t ht
    constructor
    · intro r hpc
      exact (open_of_live h ht (by simp [Task.live, hpc])).1
    · intro e hpc
      exact (open_of_live h ht (by simp [Task.live, hpc])).2
  · intro hr
    have := (h.returned hr).1
    simp [this] at hnR
    exact hnR
  · intro hf
    rw [hf] at hcR hcE
    simp [CloserPC.closedResults, CloserPC.closedErrChan] at hcR hcE
    simp [hcR, hcE] at hnR hnE
    exact ⟨hnR, hnE⟩

/-- Witness of C7 (amended): the run with one task in which `main` returns as soon as
`results` is closed. -/
theorem channels_closed_once_after_tasks_witness :
    (finalState (constEnv Winner.timer) 1 oneTaskSchedule).mainPC = MainPC.returned ∧
    (finalState (constEnv Winner.timer) 1 oneTaskSchedule).results.nclose = 1 :=
  ⟨by decide,
    (channels_closed_once_after_tasks (constEnv Winner.timer) 1 oneTaskSchedule
      (finalState (constEnv Winner.timer) 1 oneTaskSchedule) (by decide)).2.2.2.2.2.2.2.1
      (by decide)⟩

/-- C4: when every task takes the success path, in every run in which the collector
loop terminates it has printed exactly `N` success lines and no error line, and the
task identifiers on those lines are exactly `0, 1, ..., N-1`, each once, in some order. -/
theorem all_success_prints_all (env : Env) (N : Nat) (acts : List Action) (s : State)
    (hr : ∀ k, k < N → env.race k = Winner.timer)
    (hs : exec env (init N) acts = some s) (hret : s.mainPC = MainPC.returned) :
    successLines s = N ∧ errorLines s = 0 ∧ s.stdout.length = N ∧
    (printedIDs s).Perm (List.range N) := by
  have h := inv_reachable hs
  have hN : s.numRoutines = N := numRoutines_exec hs
  have hp := pastWait_of_returned h hret
  have hlen := tasks_length_of_pastWait h hp
  have hz := h.waited hp
  have hbuf := (h.returned hret).2
  have hcounts := all_timer_counts h (by rw [hN]; exact hr)
  have hperm : (printedIDs s).Perm (List.range N) := by
    rw [List.perm_iff_count]
    intro k
    have hk := h.ids k
    rw [hbuf] at hk
    simp only [List.map_nil, List.append_nil] at hk
    rw [hk, count_range]
    unfold sentResultsAt
    cases ht : s.tasks[k]? with
    | none =>
      have : ¬ k < N := by
        rw [List.getElem?_eq_none_iff] at ht
        omega
      simp [this]
    | some t =>
      have hkN : k < N := by
        rw [List.getElem?_eq_some] at ht
        have := ht.1
        omega
      have hmem := mem_of_getElem?_eq ht
      have hone := sentOne_of_exited (h.taskOK t hmem) (all_exited hz t hmem)
      have hid := h.taskID k t ht
      have hw := hr k hkN
      simp only [hkN, if_true]
      rcases hone with h1 | h1
      · exact h1.2.1
      · rw [hid, hw] at h1
        cases h1.1
  have hsucc : successLines s = N := by
    unfold successLines
    rw [hperm.length_eq, List.length_range]
  refine ⟨hsucc, hcounts.2.1, ?_, hperm⟩
  have hsplit : ∀ l : List Line,
      l.length = (l.filterMap Line.successID).length + l.countP Line.isError := by
    intro l
    induction l with
    | nil => rfl
    | cons x l ih =>
      cases x <;> simp [List.filterMap_cons, Line.successID, Line.isError, List.countP_cons]
        <;> omega
  have := hsplit s.stdout
  have he := hcounts.2.1
  unfold successLines printedIDs at hsucc
  unfold errorLines at he
  omega

/-- Witness of C4: the run with `N = 3` in which the three results reach the collector in
the order 1, 0, 2. -/
theorem all_success_prints_all_witness :
    successLines (finalState (constEnv Winner.timer) 3 threeTaskSchedule) = 3 ∧
    errorLines (finalState (constEnv Winner.timer) 3 threeTaskSchedule) = 0 ∧
    (finalState (constEnv Winner.timer) 3 threeTaskSchedule).stdout.length = 3 ∧
    (printedIDs (finalState (constEnv Winner.timer) 3 threeTaskSchedule)).Perm (List.range 3) :=
  all_success_prints_all (constEnv Winner.timer) 3 threeTaskSchedule
    (finalState (constEnv Winner.timer) 3 threeTaskSchedule) (fun _ _ => rfl)
    (by decide) (by decide)

/-- C9 as stated fails: under the durations of the code, a task that starts 2 seconds
after the context was created has its timer fire at 12 seconds, after the deadline at 11
seconds, even with every timer on time: `ctx.Done()` wins its race, the task sends a
Cancellation Error and the collector prints it. A task that starts 0.99 seconds after the
creation and whose timer fires 20 milliseconds late is cancelled as well. -/
theorem late_task_is_cancelled :
    ¬ (timerAt (10 * Second) (onTime (2 * Second)) < 0 + 11 * Second) ∧
    race 0 (onTime (2 * Second)) = Winner.done ∧
    race 0 (timerLateBy 990000000 20000000) = Winner.done ∧
    (exec (referenceEnv 0 (fun _ => onTime (2 * Second))) (init 1) drainSchedule).map
        (fun s => (s.mainPC, s.results.nsent, s.errChan.nsent, s.stdout)) =
      some (MainPC.returned, 0, 1, [Line.error GoError.deadlineExceeded]) := by
  refine ⟨by decide, by decide, by decide, ?_⟩
  decide

/-- C9, amended: under the durations of the code (deadline 11 seconds after the context's
creation, timer of 10 seconds armed when the task enters its `select`), every task that
starts at or after the creation and whose entry into the `select` plus the lateness of its
timer comes less than 1 second after the creation has its timer fire before the deadline
and wins its race, whatever the other tasks do: it never stands at the send on `errChan`,
none of its statements touches `errChan`, and run from its `select` it appends one
`TaskResult` with its identifier to `results`. When that holds of all `N` tasks nothing is
ever sent on `errChan`, no error line is printed, and `N` results are sent once the tasks
have terminated. -/
theorem reference_race_won_in_time (N created : Nat) (times : Nat → RaceTimes)
    (acts : List Action) (s : State) (k : Nat) (t : Task)
    (hs : exec (referenceEnv created times) (init N) acts = some s)
    (ht : s.tasks[k]? = some t)
    (hcreated : created ≤ (times k).start) (harrive : (times k).start ≤ (times k).arrive)
    (hwin : (times k).arrive + (times k).timerLate < created + Second) :
    (times k).start < created + Second ∧
    timerAt (10 * Second) (times k) < created + 11 * Second ∧
    race created (times k) = Winner.timer ∧
    t.sentErrs = 0 ∧ (∀ e, t.pc ≠ TaskPC.sendErr e) ∧
    (t.pc = TaskPC.deferred ∨ t.pc = TaskPC.exited → t.sentResults = 1) ∧
    (∀ s', step (referenceEnv created times) s (Action.task k) = some s' →
      s'.errChan = s.errChan ∧ s'.results.nsent ≤ s.results.nsent + 1 ∧ s'.crashed = false) ∧
    (t.pc = TaskPC.atSelect →
      ∃ s', exec (referenceEnv created times) s
          [Action.task k, Action.task k, Action.task k] = some s' ∧
        s'.crashed = false ∧
        s'.results.buf = s.results.buf ++ [taskResult (referenceEnv created times) t] ∧
        (taskResult (referenceEnv created times) t).TaskID = k ∧
        s'.results.nsent = s.results.nsent + 1 ∧
        s'.errChan = s.errChan ∧ s'.wg = s.wg - 1 ∧
        ∃ t', s'.tasks[k]? = some t' ∧ t'.pc = TaskPC.exited) ∧
    ((∀ j, j < N → (times j).arrive + (times j).timerLate < created + Second) →
      s.errChan.nsent = 0 ∧ errorLines s = 0 ∧
      (s.closer.pastWait = true → s.results.nsent = N)) := by
  have h := inv_reachable hs
  have hN : s.numRoutines = N := numRoutines_exec hs
  have hwins : ∀ j, (times j).arrive + (times j).timerLate < created + Second →
      (referenceEnv created times).race j = Winner.timer := by
    intro j hj
    simp only [referenceEnv, timedEnv, raceWith]
    apply selectWinner_timer
    · simp only [timerAt, doneAt]; omega
    · simp only [timerAt]; omega
  have hw := hwins k hwin
  have hrace : race created (times k) = Winner.timer := by
    have := hw
    simp only [referenceEnv, timedEnv] at this
    simp only [race]
    exact this
  have htask := task_of_timer h ht hw
  refine ⟨by omega, by simp only [timerAt]; omega, hrace, htask.1, htask.2.1, htask.2.2,
    ?_, ?_, ?_⟩
  · intro s' hst
    exact task_step_keeps_errChan h ht hw hst
  · intro hpc
    exact task_alone_timer h ht hpc hw
  · intro hall
    have henv : ∀ j, j < s.numRoutines → (referenceEnv created times).race j = Winner.timer := by
      intro j hj
      rw [hN] at hj
      exact hwins j (hall j hj)
    have hc := all_timer_counts h henv
    refine ⟨hc.1, hc.2.1, ?_⟩
    intro hp
    rw [← hN]
    exact hc.2.2 hp

/-- Witness of C9 (amended): a run with two tasks in which task 0 starts 2 seconds after
the context's creation and loses its race, and task 1 starts half a second after it. -/
theorem reference_race_won_in_time_witness :
    race 0 (mixedTimes 0) = Winner.done ∧
    (mixedTimes 1).start < 0 + Second ∧
    timerAt (10 * Second) (mixedTimes 1) < 0 + 11 * Second ∧
    race 0 (mixedTimes 1) = Winner.timer :=
  ⟨by decide,
   (reference_race_won_in_time 2 0 mixedTimes [.main, .main, .main, .main]
      (finalState (referenceEnv 0 mixedTimes) 2 [.main, .main, .main, .main]) 1
      (spawnTask (referenceEnv 0 mixedTimes) 1) (by decide) (by decide)
      (by decide) (by decide) (by decide)).1,
   (reference_race_won_in_time 2 0 mixedTimes [.main, .main, .main, .main]
      (finalState (referenceEnv 0 mixedTimes) 2 [.main, .main, .main, .main]) 1
      (spawnTask (referenceEnv 0 mixedTimes) 1) (by decide) (by decide)
      (by decide) (by decide) (by decide)).2.1,
   (reference_race_won_in_time 2 0 mixedTimes [.main, .main, .main, .main]
      (finalState (referenceEnv 0 mixedTimes) 2 [.main, .main, .main, .main]) 1
      (spawnTask (referenceEnv 0 mixedTimes) 1) (by decide) (by decide)
      (by decide) (by decide) (by decide)).2.2.1⟩

/-- C10 as stated fails: with a timeout of 9.995 seconds, shorter than the wait of 10
seconds, a task that starts with the context and which the closing of `ctx.Done()` reaches
10 milliseconds late sees its timer fire first, at 10 seconds: the timer wins, the task
sends a Success Result on `results` and nothing on `errChan`, and the collector prints the
success line. The same with the durations 1 and 10 when the closing is 10 units late. -/
theorem short_deadline_task_succeeds :
    (9995000000 : Nat) < 10 * Second ∧
    raceWith 9995000000 (10 * Second) 0 (doneLateBy 0 10000000) = Winner.timer ∧
    raceWith 1 10 0 (doneLateBy 0 10) = Winner.timer ∧
    (exec (timedEnv 9995000000 (10 * Second) 0 (fun _ => doneLateBy 0 10000000)) (init 1)
        oneTaskSchedule).map
        (fun s => (s.mainPC, s.results.nsent, s.errChan.nsent, s.stdout)) =
      some (MainPC.returned, 1, 0, [Line.success 0 10000000000]) := by
  refine ⟨by decide, by decide, by decide, ?_⟩
  decide

/-- C10, amended: with the two durations taken as parameters and the timeout strictly
shorter than the per-task wait, every task that starts at or after the context's creation
and which the closing of `ctx.Done()` reaches less than `wait - timeout` after the deadline
loses its race, whatever the other tasks do: the closing reaches it before its timer can
fire, it never stands at the send on `results`, none of its statements touches `results`,
and run from its `select` it appends one error to `errChan`. When that holds of all `N`
tasks nothing is ever sent on `results`, no success line is printed, all `N` outcomes are
errors sent on `errChan` once the tasks have terminated (hence when `main` has returned),
and every run can be continued until `main` returns with `N` errors and zero results
sent. -/
theorem short_deadline_cancelled_in_time (timeout wait N created : Nat)
    (times : Nat → RaceTimes) (acts : List Action) (s : State) (k : Nat) (t : Task)
    (hlt : timeout < wait)
    (hs : exec (timedEnv timeout wait created times) (init N) acts = some s)
    (ht : s.tasks[k]? = some t)
    (hcreated : created ≤ (times k).start) (harrive : (times k).start ≤ (times k).arrive)
    (hlate : timeout + (times k).doneLate < wait) :
    doneAt created timeout (times k) < timerAt wait (times k) ∧
    raceWith timeout wait created (times k) = Winner.done ∧
    t.sentResults = 0 ∧ (∀ r, t.pc ≠ TaskPC.sendResult r) ∧
    (t.pc = TaskPC.deferred ∨ t.pc = TaskPC.exited → t.sentErrs = 1) ∧
    (∀ s', step (timedEnv timeout wait created times) s (Action.task k) = some s' →
      s'.results = s.results ∧ s'.errChan.nsent ≤ s.errChan.nsent + 1 ∧ s'.crashed = false) ∧
    (t.pc = TaskPC.atSelect →
      ∃ s', exec (timedEnv timeout wait created times) s
          [Action.task k, Action.task k, Action.task k] = some s' ∧
        s'.crashed = false ∧
        s'.errChan.buf = s.errChan.buf ++ [ctxErr] ∧
        s'.errChan.nsent = s.errChan.nsent + 1 ∧
        s'.results = s.results ∧ s'.wg = s.wg - 1 ∧
        ∃ t', s'.tasks[k]? = some t' ∧ t'.pc = TaskPC.exited) ∧
    ((∀ j, j < N → created ≤ (times j).start ∧ (times j).start ≤ (times j).arrive ∧
        timeout + (times j).doneLate < wait) →
      s.results.nsent = 0 ∧ successLines s = 0 ∧
      (s.closer.pastWait = true → s.errChan.nsent = N) ∧
      (s.mainPC = MainPC.returned → s.errChan.nsent = N) ∧
      (∃ acts' s', exec (timedEnv timeout wait created times) s acts' = some s' ∧
        s'.mainPC = MainPC.returned ∧ s'.errChan.nsent = N ∧ s'.results.nsent = 0)) := by
  have h := inv_reachable hs
  have hN : s.numRoutines = N := numRoutines_exec hs
  have hloses : ∀ j, created ≤ (times j).start → (times j).start ≤ (times j).arrive →
      timeout + (times j).doneLate < wait →
      (timedEnv timeout wait created times).race j = Winner.done := by
    intro j h1 h2 h3
    simp only [timedEnv, raceWith]
    apply selectWinner_done
    · simp only [timerAt, doneAt]; omega
    · simp only [timerAt]; omega
  have hw := hloses k hcreated harrive hlate
  have hrace : raceWith timeout wait created (times k) = Winner.done := by
    have := hw
    simp only [timedEnv] at this
    exact this
  have htask := task_of_done h ht hw
  refine ⟨by simp only [timerAt, doneAt]; omega, hrace, htask.1, htask.2.1, htask.2.2,
    ?_, ?_, ?_⟩
  · intro s' hst
    exact task_step_keeps_results h ht hw hst
  · intro hpc
    exact task_alone_done h ht hpc hw
  · intro hall
    have henv : ∀ s' : State, s'.numRoutines = N → ∀ j, j < s'.numRoutines →
        (timedEnv timeout wait created times).race j = Winner.done := by
      intro s' hN' j hj
      rw [hN'] at hj
      have hj' := hall j hj
      exact hloses j hj'.1 hj'.2.1 hj'.2.2
    have hc := all_done_counts h (henv s hN)
    have hpw : s.closer.pastWait = true → s.errChan.nsent = N := by
      intro hp
      rw [← hN]
      exact hc.2.2 hp
    refine ⟨hc.1, hc.2.1, hpw, ?_, ?_⟩
    · intro hr
      exact hpw (pastWait_of_returned h hr)
    · obtain ⟨acts', s', he, hret⟩ := run_to_return (workLeft s) s h (Nat.le_refl _)
      have h' := inv_exec h he
      have hN' : s'.numRoutines = N := by rw [numRoutines_exec he, hN]
      have hc' := all_done_counts h' (henv s' hN')
      refine ⟨acts', s', he, hret, ?_, hc'.1⟩
      rw [← hN']
      exact hc'.2.2 (pastWait_of_returned h' hret)

/-- Witness of C10 (amended): timeout 1, wait 10, one task that starts with the context,
standing at its `select`, with timer and deadline on time: run to its end it leaves one
error in `errChan` and `results` untouched. -/
theorem short_deadline_cancelled_in_time_witness :
    raceWith 1 10 0 (onTime 0) = Winner.done ∧
    ∃ s', exec (timedEnv 1 10 0 (fun _ => onTime 0))
        (finalState (timedEnv 1 10 0 (fun _ => onTime 0)) 1 [.main, .main])
        [Action.task 0, Action.task 0, Action.task 0] = some s' ∧
      s'.crashed = false ∧
      s'.errChan.buf =
        (finalState (timedEnv 1 10 0 (fun _ => onTime 0)) 1 [.main, .main]).errChan.buf
          ++ [ctxErr] ∧
      s'.errChan.nsent =
        (finalState (timedEnv 1 10 0 (fun _ => onTime 0)) 1 [.main, .main]).errChan.nsent + 1 ∧
      s'.results = (finalState (timedEnv 1 10 0 (fun _ => onTime 0)) 1 [.main, .main]).results ∧
      s'.wg = (finalState (timedEnv 1 10 0 (fun _ => onTime 0)) 1 [.main, .main]).wg - 1 ∧
      ∃ t', s'.tasks[0]? = some t' ∧ t'.pc = TaskPC.exited :=
  ⟨(short_deadline_cancelled_in_time 1 10 1 0 (fun _ => onTime 0) [.main, .main]
      (finalState (timedEnv 1 10 0 (fun _ => onTime 0)) 1 [.main, .main]) 0
      (spawnTask (timedEnv 1 10 0 (fun _ => onTime 0)) 0) (by decide) (by decide) (by decide)
      (by decide) (by decide) (by decide)).2.1,
   (short_deadline_cancelled_in_time 1 10 1 0 (fun _ => onTime 0) [.main, .main]
      (finalState (timedEnv 1 10 0 (fun _ => onTime 0)) 1 [.main, .main]) 0
      (spawnTask (timedEnv 1 10 0 (fun _ => onTime 0)) 0) (by decide) (by decide) (by decide)
      (by decide) (by decide) (by decide)).2.2.2.2.2.2.1 rfl⟩

end GoBench
